import Mathlib

/-!
# The go-api ping service

A shallow embedding of `cicd/backstage-templates/entities/ci-cd/go-api/main.go`
together with the parts of the Go standard library the program calls
(`net/http`, `net/url`, `encoding/json`, `unicode/utf8`, `fmt`, `log`, `os`,
`path`), followed by the properties of `pingHandler` and of the route table
built by `main`.

The library is the one of Go 1.22 and later: the JSON encoder with its short
escapes for backspace and form feed, and the request multiplexer that matches
the escaped path of a request segment by segment. The one point on which
these releases differ and that the properties touch, the status of the
redirects issued by the multiplexer, is a parameter (`Release`).

Go strings are arbitrary byte sequences, so they are lists of bytes here.
Where the Go library works with masks and shifts on bytes, the definitions use
the equal arithmetic on naturals: `x >> k` is `x / 2^k`, `x & (2^k - 1)` is
`x % 2^k`, and the bitwise or of values with disjoint bits is their sum.
-/

namespace PingService

/-! ## Bytes and string literals -/

/-- A Go `byte`. -/
abbrev Byte := Fin 256

/-- A Go `string` (or `[]byte`): any sequence of bytes, valid UTF-8 or not. -/
abbrev Bytes := List Byte

/-- The byte with the given value (callers pass values below 256). -/
def byte (n : Nat) : Byte := Fin.ofNat n

/-- `unicode/utf8.RuneError`, the replacement character U+FFFD. -/
def RuneError : Nat := 0xFFFD

/-- `unicode/utf8.UTFMax`, the longest encoding of a rune in bytes. -/
def UTFMax : Nat := 4

/-- `unicode/utf8.AppendRune` on an empty buffer: the UTF-8 encoding of the
rune `r`; surrogates and values above U+10FFFF encode as U+FFFD. -/
def EncodeRune (r : Nat) : Bytes :=
  if r < 0x80 then [byte r]
  else if r ≤ 0x7FF then [byte (0xC0 + r / 64), byte (0x80 + r % 64)]
  else if 0x10FFFF < r ∨ (0xD800 ≤ r ∧ r ≤ 0xDFFF) then [byte 0xEF, byte 0xBF, byte 0xBD]
  else if r ≤ 0xFFFF then
    [byte (0xE0 + r / 4096), byte (0x80 + r / 64 % 64), byte (0x80 + r % 64)]
  else
    [byte (0xF0 + r / 262144), byte (0x80 + r / 4096 % 64), byte (0x80 + r / 64 % 64),
      byte (0x80 + r % 64)]

/-- The bytes of a Go string literal written as a Lean string literal. -/
def lit (s : String) : Bytes :=
  (s.toList.map (fun c => EncodeRune c.toNat)).flatten

/-! ## unicode/utf8 -/

/-- The table `first` of `unicode/utf8` for a leading byte of a multi-byte
sequence: the length of the sequence and the accepted range of its second
byte, or `none` for a byte that cannot start one (`xx` in the table). -/
def first (b : Nat) : Option (Nat × Nat × Nat) :=
  if b < 0xC2 then none
  else if b < 0xE0 then some (2, 0x80, 0xBF)
  else if b = 0xE0 then some (3, 0xA0, 0xBF)
  else if b < 0xED then some (3, 0x80, 0xBF)
  else if b = 0xED then some (3, 0x80, 0x9F)
  else if b < 0xF0 then some (3, 0x80, 0xBF)
  else if b = 0xF0 then some (4, 0x90, 0xBF)
  else if b < 0xF4 then some (4, 0x80, 0xBF)
  else if b = 0xF4 then some (4, 0x80, 0x8F)
  else none

/-- `unicode/utf8.DecodeRuneInString`: the first rune of `s` and the number of
bytes it takes; `(RuneError, 0)` for the empty string and `(RuneError, 1)`
for an invalid or truncated encoding. -/
def DecodeRuneInString : Bytes → Nat × Nat
  | [] => (RuneError, 0)
  | s0 :: t =>
    if s0.val < 0x80 then (s0.val, 1)
    else
      match first s0.val with
      | none => (RuneError, 1)
      | some (sz, lo, hi) =>
        if t.length + 1 < sz then (RuneError, 1)
        else
          match t with
          | [] => (RuneError, 1)
          | s1 :: t1 =>
            if s1.val < lo ∨ hi < s1.val then (RuneError, 1)
            else if sz ≤ 2 then (s0.val % 32 * 64 + s1.val % 64, 2)
            else
              match t1 with
              | [] => (RuneError, 1)
              | s2 :: t2 =>
                if s2.val < 0x80 ∨ 0xBF < s2.val then (RuneError, 1)
                else if sz ≤ 3 then
                  (s0.val % 16 * 4096 + s1.val % 64 * 64 + s2.val % 64, 3)
                else
                  match t2 with
                  | [] => (RuneError, 1)
                  | s3 :: _ =>
                    if s3.val < 0x80 ∨ 0xBF < s3.val then (RuneError, 1)
                    else
                      (s0.val % 8 * 262144 + s1.val % 64 * 4096 + s2.val % 64 * 64
                        + s3.val % 64, 4)

/-- The loop of `unicode/utf8.ValidString`: no position of `s` decodes to an
encoding error. The fuel bounds the number of iterations. -/
def ValidStringLoop : Nat → Bytes → Bool
  | 0, s => s.isEmpty
  | _ + 1, [] => true
  | fuel + 1, b :: rest =>
    if b.val < 0x80 then ValidStringLoop fuel rest
    else
      let d := DecodeRuneInString (b :: rest)
      if d.1 = RuneError ∧ d.2 = 1 then false
      else ValidStringLoop fuel (rest.drop (d.2 - 1))

/-- `unicode/utf8.ValidString`: whether `s` consists entirely of valid UTF-8. -/
def ValidString (s : Bytes) : Bool := ValidStringLoop s.length s

/-- The loop of the conversion `string([]rune(s))`: the runes of `s` encoded
again, so that every byte of `s` that is not part of a valid encoding becomes
U+FFFD. The fuel bounds the number of iterations. -/
def ToValidLoop : Nat → Bytes → Bytes
  | 0, _ => []
  | _ + 1, [] => []
  | fuel + 1, b :: rest =>
    if b.val < 0x80 then b :: ToValidLoop fuel rest
    else
      let d := DecodeRuneInString (b :: rest)
      EncodeRune d.1 ++ ToValidLoop fuel (rest.drop (d.2 - 1))

/-- The Go conversion `string([]rune(s))`: `s` with every invalid byte
replaced by U+FFFD. -/
def ToValid (s : Bytes) : Bytes := ToValidLoop s.length s

/-! ## fmt, log and os -/

/-- A Go `error`, seen through its `Error()` method. -/
structure GoError where
  /-- The text `Error()` returns. -/
  Error : Bytes
deriving DecidableEq

/-- `fmt.Sprintln` on operands already formatted with `%v`: the operands
separated by single spaces, then a newline. -/
def Sprintln : List Bytes → Bytes
  | [] => [byte 0x0A]
  | [a] => a ++ [byte 0x0A]
  | a :: b :: rest => a ++ byte 0x20 :: Sprintln (b :: rest)

/-- What the operating system answers to `os.Hostname()`. -/
structure OS where
  /-- The result of `os.Hostname()`: the kernel host name, or an error. -/
  Hostname : Except GoError Bytes

/-! ## net/http: requests and the response writer -/

/-- `http.MethodGet`. -/
def MethodGet : Bytes := lit "GET"

/-- `http.StatusOK`. -/
def StatusOK : Nat := 200

/-- `http.StatusMovedPermanently`. -/
def StatusMovedPermanently : Nat := 301

/-- `http.StatusBadRequest`. -/
def StatusBadRequest : Nat := 400

/-- `http.StatusNotFound`. -/
def StatusNotFound : Nat := 404

/-- `http.StatusMethodNotAllowed`. -/
def StatusMethodNotAllowed : Nat := 405

/-- An `http.Header` with one value per key, as a list of key and value. -/
abbrev Header := List (Bytes × Bytes)

/-- `Header.Del`: remove the key. -/
def Header.Del (h : Header) (key : Bytes) : Header :=
  h.filter (fun kv => kv.1 ≠ key)

/-- `Header.Set`: replace whatever is stored under the key. The keys the
program uses are already in canonical MIME form. -/
def Header.Set (h : Header) (key value : Bytes) : Header :=
  (Header.Del h key) ++ [(key, value)]

/-- `Header.Get`: the value under the key, if any. -/
def Header.Get (h : Header) (key : Bytes) : Option Bytes :=
  (h.find? (fun kv => kv.1 = key)).map Prod.snd

/-- The fields of an `*http.Request` that the server and the handler can
look at. -/
structure Request where
  /-- The request method, any token the client sent. -/
  Method : Bytes
  /-- The request target as sent, `r.RequestURI`. -/
  RequestURI : Bytes
  /-- The host of the request, `r.Host`. -/
  Host : Bytes
  /-- The decoded path, `r.URL.Path`. -/
  Path : Bytes
  /-- The path as it was sent, `r.URL.RawPath`; empty when the default
  escaping of `Path` gives it back. -/
  RawPath : Bytes
  /-- The query string, `r.URL.RawQuery`. -/
  RawQuery : Bytes
  /-- The major version of the protocol, `r.ProtoMajor`. -/
  ProtoMajor : Nat
  /-- The minor version of the protocol, `r.ProtoMinor`. -/
  ProtoMinor : Nat
  /-- The request headers. -/
  Header : Header
  /-- The request body. -/
  Body : Bytes

/-- What a handler has done to its `http.ResponseWriter`. -/
structure ResponseWriter where
  /-- The map returned by `w.Header()`. -/
  header : Header
  /-- Whether the status line has been written. -/
  wroteHeader : Bool
  /-- The status code written, meaningful once `wroteHeader`. -/
  status : Nat
  /-- The header map as it was when the status line was written. -/
  sent : Header
  /-- The body bytes written so far. -/
  body : Bytes
  /-- Whether the handler called `WriteHeader` itself, as opposed to the
  status being implied by the first `Write`. -/
  explicit : Bool
deriving DecidableEq

/-- The response writer the server hands to a handler for a new request. -/
def ResponseWriter.fresh : ResponseWriter :=
  { header := [], wroteHeader := false, status := 0, sent := [], body := [], explicit := false }

/-- Everything a handler can change: its response writer, the lines given to
the standard logger, and the number of calls made to `os.Hostname`. -/
structure State where
  /-- The response writer of the request being served. -/
  w : ResponseWriter
  /-- The lines written through package `log`, oldest first, without the
  date and time the logger puts in front. -/
  log : List Bytes
  /-- How many times `os.Hostname` has been called. -/
  hostnameCalls : Nat
deriving DecidableEq

/-- The state in which the server starts a handler: a fresh response writer,
and whatever was logged and resolved before. -/
def State.start (log : List Bytes) (calls : Nat) : State :=
  { w := ResponseWriter.fresh, log := log, hostnameCalls := calls }

/-- `log.Println(v...)`: one line, `fmt.Sprintln(v...)`, to the standard logger. -/
def Println (s : State) (v : List Bytes) : State :=
  { s with log := s.log ++ [Sprintln v] }

/-- `os.Hostname()`: the answer of the operating system, and the call counted. -/
def Hostname (os : OS) (s : State) : Except GoError Bytes × State :=
  (os.Hostname, { s with hostnameCalls := s.hostnameCalls + 1 })

/-- `w.Header().Set(key, value)`. -/
def HeaderSet (s : State) (key value : Bytes) : State :=
  { s with w := { s.w with header := Header.Set s.w.header key value } }

/-- `w.Header().Del(key)`. -/
def HeaderDel (s : State) (key : Bytes) : State :=
  { s with w := { s.w with header := Header.Del s.w.header key } }

/-- The status line goes out: the code and the header map of that moment are
fixed. A second attempt changes nothing and is reported by the server through
the standard logger. -/
def sendHeader (s : State) (code : Nat) (explicit : Bool) : State :=
  if s.w.wroteHeader then
    { s with log := s.log ++ [lit "http: superfluous response.WriteHeader call"] }
  else
    { s with w := { s.w with wroteHeader := true, status := code, sent := s.w.header,
                             explicit := explicit } }

/-- `w.WriteHeader(code)` called by a handler. -/
def WriteHeader (s : State) (code : Nat) : State :=
  sendHeader s code true

/-- `w.Write(p)`: the first write implies `WriteHeader(http.StatusOK)`. -/
def Write (s : State) (p : Bytes) : State :=
  let s1 := if s.w.wroteHeader then s else sendHeader s StatusOK false
  { s1 with w := { s1.w with body := s1.w.body ++ p } }

/-- `http.Error(w, error, code)`: a plain-text reply with the given status;
the body is `fmt.Fprintln(w, error)`. -/
def Error (s : State) (error : Bytes) (code : Nat) : State :=
  let s := HeaderDel s (lit "Content-Length")
  let s := HeaderSet s (lit "Content-Type") (lit "text/plain; charset=utf-8")
  let s := HeaderSet s (lit "X-Content-Type-Options") (lit "nosniff")
  let s := WriteHeader s code
  Write s (Sprintln [error])

/-- The status the client receives: the one written, or 200 when the handler
returned without writing anything (the server then finishes the response). -/
def ResponseWriter.finalStatus (w : ResponseWriter) : Nat :=
  if w.wroteHeader then w.status else StatusOK

/-- The `Content-Type` the client receives, if the response carries one. -/
def ResponseWriter.contentType (w : ResponseWriter) : Option Bytes :=
  if w.wroteHeader then Header.Get w.sent (lit "Content-Type") else none

/-! ## encoding/json: the encoder -/

/-- The digits `hex` of `encoding/json`, `"0123456789abcdef"`. -/
def hex (n : Nat) : Byte :=
  if n < 10 then byte (0x30 + n) else byte (0x57 + n)

/-- The table `htmlSafeSet` of `encoding/json`: the ASCII bytes written into a
JSON string as they are when HTML escaping is on (the default of an
`Encoder`): everything from space up to DEL except the double quote, `&`,
`<`, `>` and the backslash. -/
def htmlSafeSet (b : Nat) : Bool :=
  decide (0x20 ≤ b ∧ b < 0x80 ∧ b ≠ 0x22 ∧ b ≠ 0x26 ∧ b ≠ 0x3C ∧ b ≠ 0x3E ∧ b ≠ 0x5C)

/-- The escape `appendString` writes for an ASCII byte outside `htmlSafeSet`.
Go before 1.22 writes backspace and form feed as `\u0008` and `\u000c`,
which read back as the same bytes. -/
def escapeByte (b : Byte) : Bytes :=
  if b.val = 0x5C ∨ b.val = 0x22 then [byte 0x5C, b]
  else if b.val = 0x08 then lit "\\b"
  else if b.val = 0x0C then lit "\\f"
  else if b.val = 0x0A then lit "\\n"
  else if b.val = 0x0D then lit "\\r"
  else if b.val = 0x09 then lit "\\t"
  else lit "\\u00" ++ [hex (b.val / 16), hex (b.val % 16)]

/-- The loop of `appendString` of `encoding/json` with `escapeHTML` set, on
the part of the source string that is still to be written. The fuel bounds the
number of iterations. -/
def appendStringLoop : Nat → Bytes → Bytes
  | 0, _ => []
  | _ + 1, [] => []
  | fuel + 1, b :: rest =>
    if b.val < 0x80 then
      if htmlSafeSet b.val then b :: appendStringLoop fuel rest
      else escapeByte b ++ appendStringLoop fuel rest
    else
      let d := DecodeRuneInString ((b :: rest).take UTFMax)
      if d.1 = RuneError ∧ d.2 = 1 then
        lit "\\ufffd" ++ appendStringLoop fuel rest
      else if d.1 = 0x2028 ∨ d.1 = 0x2029 then
        lit "\\u202" ++ hex (d.1 % 16) :: appendStringLoop fuel (rest.drop (d.2 - 1))
      else
        (b :: rest).take d.2 ++ appendStringLoop fuel (rest.drop (d.2 - 1))

/-- `appendString` of `encoding/json` on an empty buffer: `src` as a JSON
string, between double quotes. -/
def appendString (src : Bytes) : Bytes :=
  byte 0x22 :: appendStringLoop src.length src ++ [byte 0x22]

/-! ## The program -/

/-- The type `Response` of the program: one string field, written to JSON
under the name `message`. -/
structure Response where
  /-- The field `Message`. -/
  Message : Bytes
deriving DecidableEq

/-- What `encoding/json` marshals a `Response` to: an object with the one
member `message`. -/
def Response.marshal (v : Response) : Bytes :=
  byte 0x7B :: appendString (lit "message") ++ byte 0x3A :: appendString v.Message ++ [byte 0x7D]

/-- `json.NewEncoder(w).Encode(v)` for a `Response`: the marshalled value and
a newline, in one `Write`. -/
def Encode (s : State) (v : Response) : State :=
  Write s (Response.marshal v ++ [byte 0x0A])

/-- The value `response` that `pingHandler` constructs from the host name. -/
def response (hostname : Bytes) : Response :=
  { Message := lit "pong from server : " ++ hostname }

/-- The function `pingHandler` of the program. -/
def pingHandler (os : OS) (r : Request) (s : State) : State :=
  if r.Method ≠ MethodGet then
    Error s (lit "Method not allowed") StatusMethodNotAllowed
  else
    match Hostname os s with
    | (Except.error err, s) => Println s [lit "Error : %v", err.Error]
    | (Except.ok hostname, s) =>
      let s := HeaderSet s (lit "Content-Type") (lit "application/json")
      Encode s (response hostname)

/-! ## encoding/json: the decoder -/

/-- A decoded JSON value. Numbers keep their text; the members of an object
keep their order and their duplicates. -/
inductive JSON where
  | null
  | bool (b : Bool)
  | number (raw : Bytes)
  | string (s : Bytes)
  | array (elems : List JSON)
  | object (members : List (Bytes × JSON))

/-- Skip JSON white space: space, tab, line feed, carriage return. -/
def skipWS : Bytes → Bytes
  | [] => []
  | b :: t =>
    if b.val = 0x20 ∨ b.val = 0x09 ∨ b.val = 0x0A ∨ b.val = 0x0D then skipWS t else b :: t

/-- The value of a hexadecimal digit, in either case. -/
def hexVal (b : Byte) : Option Nat :=
  if 0x30 ≤ b.val ∧ b.val ≤ 0x39 then some (b.val - 0x30)
  else if 0x61 ≤ b.val ∧ b.val ≤ 0x66 then some (b.val - 0x61 + 10)
  else if 0x41 ≤ b.val ∧ b.val ≤ 0x46 then some (b.val - 0x41 + 10)
  else none

/-- `getu4` of `encoding/json`: the code unit of a `\uXXXX` escape at the
start of `s`, or `none` if `s` does not start with one. -/
def getu4 : Bytes → Option Nat
  | b0 :: b1 :: h0 :: h1 :: h2 :: h3 :: _ =>
    if b0.val = 0x5C ∧ b1.val = 0x75 then
      match hexVal h0, hexVal h1, hexVal h2, hexVal h3 with
      | some a, some b, some c, some d => some (a * 4096 + b * 256 + c * 16 + d)
      | _, _, _, _ => none
    else none
  | _ => none

/-- `unicode/utf16.IsSurrogate`. -/
def IsSurrogate (r : Nat) : Bool := decide (0xD800 ≤ r ∧ r < 0xE000)

/-- `unicode/utf16.DecodeRune` on a first code unit and what `getu4` found
after it: the rune of a valid surrogate pair, U+FFFD otherwise. -/
def utf16DecodeRune (r1 : Nat) (r2 : Option Nat) : Nat :=
  match r2 with
  | some r2 =>
    if 0xD800 ≤ r1 ∧ r1 < 0xDC00 ∧ 0xDC00 ≤ r2 ∧ r2 < 0xE000 then
      (r1 - 0xD800) * 1024 + (r2 - 0xDC00) + 0x10000
    else RuneError
  | none => RuneError

/-- Put `p` in front of the string a successful parse returned. -/
def prepend (p : Bytes) (r : Option (Bytes × Bytes)) : Option (Bytes × Bytes) :=
  r.map (fun x => (p ++ x.1, x.2))

/-- The byte a one-letter escape stands for, `none` for a letter that is not
an escape. -/
def unescapeByte (e : Byte) : Option Byte :=
  if e.val = 0x22 ∨ e.val = 0x5C ∨ e.val = 0x2F then some e
  else if e.val = 0x62 then some (byte 0x08)
  else if e.val = 0x66 then some (byte 0x0C)
  else if e.val = 0x6E then some (byte 0x0A)
  else if e.val = 0x72 then some (byte 0x0D)
  else if e.val = 0x74 then some (byte 0x09)
  else none

/-- The string scanner and `unquote` of `encoding/json` in one pass over the
input that follows an opening double quote: the decoded string and the input
after the closing quote. Control characters, unknown escapes and a missing
closing quote are errors; bytes that are not valid UTF-8 are coerced to
U+FFFD. The fuel bounds the number of iterations. -/
def unquoteLoop : Nat → Bytes → Option (Bytes × Bytes)
  | 0, _ => none
  | _ + 1, [] => none
  | fuel + 1, c :: t =>
    if c.val = 0x22 then some ([], t)
    else if c.val = 0x5C then
      match t with
      | [] => none
      | e :: t1 =>
        if e.val = 0x75 then
          match getu4 (c :: t) with
          | none => none
          | some rr =>
            let t2 := t1.drop 4
            if IsSurrogate rr then
              let dec := utf16DecodeRune rr (getu4 t2)
              if dec ≠ RuneError then prepend (EncodeRune dec) (unquoteLoop fuel (t2.drop 6))
              else prepend (EncodeRune RuneError) (unquoteLoop fuel t2)
            else prepend (EncodeRune rr) (unquoteLoop fuel t2)
        else
          match unescapeByte e with
          | none => none
          | some b => prepend [b] (unquoteLoop fuel t1)
    else if c.val < 0x20 then none
    else if c.val < 0x80 then prepend [c] (unquoteLoop fuel t)
    else
      let d := DecodeRuneInString (c :: t)
      prepend (EncodeRune d.1) (unquoteLoop fuel (t.drop (d.2 - 1)))

/-- Parse a JSON string whose opening quote has been read. -/
def parseString (s : Bytes) : Option (Bytes × Bytes) :=
  unquoteLoop (s.length + 1) s

/-- Remove the prefix `p` from `s`, if `s` starts with it. -/
def stripPrefix : Bytes → Bytes → Option Bytes
  | [], s => some s
  | _ :: _, [] => none
  | a :: p, b :: s => if a = b then stripPrefix p s else none

/-- Whether the byte is a decimal digit. -/
def isDigit (b : Byte) : Bool := decide (0x30 ≤ b.val ∧ b.val ≤ 0x39)

/-- The digits at the start of the input, and the input after them. -/
def takeDigits : Bytes → Bytes × Bytes
  | [] => ([], [])
  | b :: t => if isDigit b then (b :: (takeDigits t).1, (takeDigits t).2) else ([], b :: t)

/-- The exponent of a JSON number, if the input starts with one. -/
def scanExponent (s : Bytes) : Option (Bytes × Bytes) :=
  match s with
  | e :: t =>
    if e.val = 0x65 ∨ e.val = 0x45 then
      match t with
      | sg :: t1 =>
        if sg.val = 0x2B ∨ sg.val = 0x2D then
          let d := takeDigits t1
          if d.1.isEmpty then none else some (e :: sg :: d.1, d.2)
        else
          let d := takeDigits t
          if d.1.isEmpty then none else some (e :: d.1, d.2)
      | [] => none
    else some ([], s)
  | [] => some ([], s)

/-- The fraction of a JSON number, if the input starts with one. -/
def scanFraction (s : Bytes) : Option (Bytes × Bytes) :=
  match s with
  | p :: t =>
    if p.val = 0x2E then
      let d := takeDigits t
      if d.1.isEmpty then none else some (p :: d.1, d.2)
    else some ([], s)
  | [] => some ([], s)

/-- The integer part of a JSON number: a single zero, or digits that do not
start with zero. -/
def scanInt (s : Bytes) : Option (Bytes × Bytes) :=
  match s with
  | b :: t =>
    if b.val = 0x30 then some ([b], t)
    else if isDigit b then some (b :: (takeDigits t).1, (takeDigits t).2)
    else none
  | [] => none

/-- A JSON number at the start of the input: its text and what follows. -/
def scanNumber (s : Bytes) : Option (Bytes × Bytes) :=
  let sign : Bytes × Bytes :=
    match s with
    | m :: t => if m.val = 0x2D then ([m], t) else ([], s)
    | [] => ([], s)
  match scanInt sign.2 with
  | none => none
  | some (i, r1) =>
    match scanFraction r1 with
    | none => none
    | some (f, r2) =>
      match scanExponent r2 with
      | none => none
      | some (e, r3) => some (sign.1 ++ i ++ f ++ e, r3)

mutual

/-- One JSON value at the start of the input, white space before it allowed:
the value and the input after it. The fuel bounds the nesting and the number
of members read. -/
def parseValue : Nat → Bytes → Option (JSON × Bytes)
  | 0, _ => none
  | fuel + 1, s =>
    match skipWS s with
    | [] => none
    | c :: t =>
      if c.val = 0x22 then
        (parseString t).map (fun p => (JSON.string p.1, p.2))
      else if c.val = 0x7B then
        match skipWS t with
        | [] => none
        | d :: t1 =>
          if d.val = 0x7D then some (JSON.object [], t1)
          else (parseMembers fuel (d :: t1)).map (fun p => (JSON.object p.1, p.2))
      else if c.val = 0x5B then
        match skipWS t with
        | [] => none
        | d :: t1 =>
          if d.val = 0x5D then some (JSON.array [], t1)
          else (parseElements fuel (d :: t1)).map (fun p => (JSON.array p.1, p.2))
      else if c.val = 0x74 then
        (stripPrefix (lit "rue") t).map (fun r => (JSON.bool true, r))
      else if c.val = 0x66 then
        (stripPrefix (lit "alse") t).map (fun r => (JSON.bool false, r))
      else if c.val = 0x6E then
        (stripPrefix (lit "ull") t).map (fun r => (JSON.null, r))
      else
        (scanNumber (c :: t)).map (fun p => (JSON.number p.1, p.2))

/-- The members of an object after its opening brace, up to and including the
closing brace. -/
def parseMembers : Nat → Bytes → Option (List (Bytes × JSON) × Bytes)
  | 0, _ => none
  | fuel + 1, s =>
    match skipWS s with
    | [] => none
    | c :: t =>
      if c.val = 0x22 then
        match parseString t with
        | none => none
        | some (k, t1) =>
          match skipWS t1 with
          | [] => none
          | c1 :: t2 =>
            if c1.val = 0x3A then
              match parseValue fuel t2 with
              | none => none
              | some (v, t3) =>
                match skipWS t3 with
                | [] => none
                | c2 :: t4 =>
                  if c2.val = 0x2C then
                    (parseMembers fuel t4).map (fun p => ((k, v) :: p.1, p.2))
                  else if c2.val = 0x7D then some ([(k, v)], t4)
                  else none
            else none
      else none

/-- The elements of an array after its opening bracket, up to and including
the closing bracket. -/
def parseElements : Nat → Bytes → Option (List JSON × Bytes)
  | 0, _ => none
  | fuel + 1, s =>
    match parseValue fuel s with
    | none => none
    | some (v, t) =>
      match skipWS t with
      | [] => none
      | c :: t1 =>
        if c.val = 0x2C then (parseElements fuel t1).map (fun p => (v :: p.1, p.2))
        else if c.val = 0x5D then some ([v], t1)
        else none

end

/-- Decode a whole JSON text: one value, with nothing but white space around
it. -/
def Unmarshal (data : Bytes) : Option JSON :=
  match parseValue (data.length + 1) data with
  | none => none
  | some (v, rest) => if (skipWS rest).isEmpty then some v else none

/-- The value of `message` when the body decodes to a JSON object with
exactly one member, that member is named `message` and its value is a string;
`none` for every other body. -/
def messageOf (body : Bytes) : Option Bytes :=
  match Unmarshal body with
  | some (JSON.object [(k, JSON.string v)]) => if k = lit "message" then some v else none
  | _ => none

/-! ## path: cleaning a path -/

/-- `strings.Split(s, sep)` for a one-byte separator. -/
def Split (sep : Byte) : Bytes → List Bytes
  | [] => [[]]
  | b :: t =>
    if b = sep then [] :: Split sep t
    else
      match Split sep t with
      | [] => [[b]]
      | e :: es => (b :: e) :: es

/-- The elements `path.Clean` keeps, out of the elements between the slashes
of a path: empty elements and `.` go away, `..` removes the element before it,
is dropped at the root, and is kept at the start of a path that is not rooted.
`out` is the elements kept so far, last one first. -/
def cleanElems (rooted : Bool) : List Bytes → List Bytes → List Bytes
  | [], out => out.reverse
  | e :: es, out =>
    if e = [] ∨ e = lit "." then cleanElems rooted es out
    else if e = lit ".." then
      match out with
      | [] => if rooted then cleanElems rooted es [] else cleanElems rooted es [e]
      | top :: out1 =>
        if top = lit ".." then cleanElems rooted es (e :: out)
        else cleanElems rooted es out1
    else cleanElems rooted es (e :: out)

/-- `path.Clean`: the shortest path equivalent to `p` by purely lexical
processing. -/
def Clean (p : Bytes) : Bytes :=
  if p = [] then lit "."
  else
    let rooted : Bool := p.head? = some (byte 0x2F)
    let out := (lit "/").intercalate (cleanElems rooted (Split (byte 0x2F) p) [])
    if rooted then byte 0x2F :: out
    else if out = [] then lit "." else out

/-- `cleanPath` of `net/http`: the canonical form of a request path, rooted,
without `.` and `..` elements or repeated slashes, a trailing slash kept. -/
def cleanPath (p : Bytes) : Bytes :=
  if p = [] then lit "/"
  else
    let p1 := if p.head? = some (byte 0x2F) then p else byte 0x2F :: p
    let np := Clean p1
    if p1.getLast? = some (byte 0x2F) ∧ np ≠ lit "/" then np ++ lit "/" else np

/-! ## net/url: the escaped form of a path -/

/-- `shouldEscape(c, encodePath)` of `net/url`: letters, digits, the marks
`-_.~` and the reserved characters other than `?` stay as they are in a path;
every other byte is escaped. -/
def shouldEscape (c : Byte) : Bool :=
  if (0x61 ≤ c.val ∧ c.val ≤ 0x7A) ∨ (0x41 ≤ c.val ∧ c.val ≤ 0x5A)
      ∨ (0x30 ≤ c.val ∧ c.val ≤ 0x39) then false
  else if c.val = 0x2D ∨ c.val = 0x5F ∨ c.val = 0x2E ∨ c.val = 0x7E then false
  else if c.val = 0x24 ∨ c.val = 0x26 ∨ c.val = 0x2B ∨ c.val = 0x2C ∨ c.val = 0x2F
      ∨ c.val = 0x3A ∨ c.val = 0x3B ∨ c.val = 0x3D ∨ c.val = 0x3F ∨ c.val = 0x40 then
    decide (c.val = 0x3F)
  else true

/-- The digits `upperhex` of `net/url`, `"0123456789ABCDEF"`. -/
def upperhex (n : Nat) : Byte :=
  if n < 10 then byte (0x30 + n) else byte (0x37 + n)

/-- `escape(s, encodePath)` of `net/url`: every byte that `shouldEscape`
names becomes `%XX`. -/
def escape : Bytes → Bytes
  | [] => []
  | c :: t =>
    if shouldEscape c then
      byte 0x25 :: upperhex (c.val / 16) :: upperhex (c.val % 16) :: escape t
    else c :: escape t

/-- `unescape(s, encodePath)` of `net/url`: every `%XX` becomes its byte;
`none` for a `%` that is not followed by two hexadecimal digits. -/
def unescape : Bytes → Option Bytes
  | [] => some []
  | c :: t =>
    if c.val = 0x25 then
      match t with
      | a :: b :: rest =>
        match hexVal a, hexVal b with
        | some x, some y => (unescape rest).map (fun u => byte (x * 16 + y) :: u)
        | _, _ => none
      | _ => none
    else (unescape t).map (fun u => c :: u)

/-- `validEncoded(s, encodePath)` of `net/url`: whether `s` can stand as the
escaped form of a path. -/
def validEncoded (s : Bytes) : Bool :=
  s.all (fun c =>
    if c.val = 0x21 ∨ c.val = 0x24 ∨ c.val = 0x26 ∨ c.val = 0x27 ∨ c.val = 0x28
        ∨ c.val = 0x29 ∨ c.val = 0x2A ∨ c.val = 0x2B ∨ c.val = 0x2C ∨ c.val = 0x3B
        ∨ c.val = 0x3D ∨ c.val = 0x3A ∨ c.val = 0x40 then true
    else if c.val = 0x5B ∨ c.val = 0x5D then true
    else if c.val = 0x25 then true
    else !shouldEscape c)

/-- `r.URL.EscapedPath()`: the raw path when it is a valid encoding of the
path, the default escaping of the path otherwise. -/
def EscapedPath (r : Request) : Bytes :=
  if r.RawPath ≠ [] ∧ validEncoded r.RawPath = true ∧ unescape r.RawPath = some r.Path then
    r.RawPath
  else if r.Path = lit "*" then lit "*"
  else escape r.Path

/-- What the request parser of the server guarantees about the requests it
builds: the path is empty, `*` or starts with a slash; a raw path, if kept,
starts with a slash; and the path is `*` exactly when the request target
is. -/
def fromServer (r : Request) : Prop :=
  (r.Path = [] ∨ r.Path = lit "*" ∨ r.Path.head? = some (byte 0x2F))
    ∧ (r.RawPath = [] ∨ r.RawPath.head? = some (byte 0x2F))
    ∧ (r.RequestURI = lit "*" ↔ r.Path = lit "*")

instance (r : Request) : Decidable (fromServer r) := by
  unfold fromServer; infer_instance

/-! ## net/http: the request multiplexer -/

/-- `http.StatusTemporaryRedirect`. -/
def StatusTemporaryRedirect : Nat := 307

/-- `http.StatusExpectationFailed`. -/
def StatusExpectationFailed : Nat := 417

/-- The status of the redirects that the request multiplexer issues depends
on the Go release the program is built with: `http.StatusMovedPermanently` in
the older ones, `http.StatusTemporaryRedirect` in the newer ones. -/
inductive Release where
  | movedPermanently
  | temporaryRedirect
deriving DecidableEq

/-- The status of a redirect issued by the request multiplexer. -/
def Release.redirectStatus : Release → Nat
  | Release.movedPermanently => StatusMovedPermanently
  | Release.temporaryRedirect => StatusTemporaryRedirect

/-- The handlers the multiplexer can return: a function registered by the
program, the not-found handler, or a redirect. -/
inductive Handler where
  | HandlerFunc (f : OS → Request → State → State)
  | NotFoundHandler
  | RedirectHandler (url : Bytes) (code : Nat)

/-- `pathUnescape` of `net/http`: the segment unescaped, or as it is when it
cannot be unescaped. -/
def pathUnescape (s : Bytes) : Bytes :=
  (unescape s).getD s

/-- `firstSegment` of `net/http`: the first segment of a path, unescaped,
and the rest of the path. The first byte of the path is dropped unseen. -/
def firstSegment (path : Bytes) : Bytes × Bytes :=
  if path = lit "/" then (lit "/", [])
  else
    (pathUnescape ((path.drop 1).takeWhile (fun b => b ≠ byte 0x2F)),
      (path.drop 1).dropWhile (fun b => b ≠ byte 0x2F))

/-- The segments that the routing tree of the multiplexer walks along for a
request path: `firstSegment` again and again until nothing is left. The fuel
bounds the number of segments. -/
def pathSegments : Nat → Bytes → List Bytes
  | 0, _ => []
  | fuel + 1, path =>
    if path = [] then []
    else (firstSegment path).1 :: pathSegments fuel (firstSegment path).2

/-- The segments of a request path. -/
def segmentsOf (path : Bytes) : List Bytes :=
  pathSegments path.length path

/-- An entry of the route table: a handler, the pattern it was registered
for, and the segments of the pattern. -/
structure muxEntry where
  /-- The handler. -/
  h : Handler
  /-- The pattern. -/
  pattern : Bytes
  /-- The literal segments of the pattern. -/
  segments : List Bytes

/-- An `http.ServeMux` of Go 1.22 and later, for patterns that are a plain
path: no method, no host, no wildcard, no escape, no empty segment and no
trailing slash. For such patterns the routing tree is a chain of literal
segments each, so it is kept as the list of the patterns with their segments,
and the host and the method of a request play no part in the match. -/
structure ServeMux where
  /-- The registered patterns, in the order of registration. -/
  patterns : List muxEntry

/-- `http.DefaultServeMux` at program start: no routes. -/
def DefaultServeMux : ServeMux := { patterns := [] }

/-- `parsePattern` of `net/http` on a plain path pattern: its segments.
`none` for the empty pattern, which is an error, and for a pattern with a
method, host, wildcard, escape, empty segment or trailing slash, which is
outside this model. -/
def parsePattern (s : Bytes) : Option (List Bytes) :=
  if s.head? = some (byte 0x2F)
      ∧ (Split (byte 0x2F) (s.drop 1)).all (fun seg => decide (seg ≠ [])) = true
      ∧ s.all (fun b => b.val ≠ 0x20 ∧ b.val ≠ 0x09 ∧ b.val ≠ 0x7B ∧ b.val ≠ 0x7D
          ∧ b.val ≠ 0x25) = true then
    some (Split (byte 0x2F) (s.drop 1))
  else none

/-- `(*ServeMux).Handle`: register the handler for the pattern. `none` stands
for the panic on a pattern that is invalid or conflicts with a registered
one, and for the patterns outside this model. -/
def ServeMux.Handle (mux : ServeMux) (pattern : Bytes) (handler : Handler) : Option ServeMux :=
  match parsePattern pattern with
  | none => none
  | some segs =>
    if mux.patterns.any (fun e => e.segments = segs) then none
    else some { patterns := mux.patterns ++ [{ h := handler, pattern := pattern, segments := segs }] }

/-- `http.HandleFunc(pattern, handler)`. -/
def HandleFunc (mux : ServeMux) (pattern : Bytes) (handler : OS → Request → State → State) :
    Option ServeMux :=
  mux.Handle pattern (Handler.HandlerFunc handler)

/-- The match of the routing tree: the pattern whose segments are those of
the path. -/
def ServeMux.match (mux : ServeMux) (path : Bytes) : Option muxEntry :=
  mux.patterns.find? (fun e => e.segments = segmentsOf path)

/-- `(*ServeMux).matchOrRedirect`: the pattern that matches the path; or,
when none does, `u` is given and the path with a slash added has a match,
the path and query to redirect to. -/
def ServeMux.matchOrRedirect (mux : ServeMux) (path : Bytes) (u : Option Request) :
    Option muxEntry × Option (Bytes × Bytes) :=
  match mux.match path, u with
  | none, some r =>
    if path.getLast? ≠ some (byte 0x2F) ∧ (mux.match (path ++ lit "/")).isSome then
      (none, some (cleanPath r.Path ++ lit "/", r.RawQuery))
    else (none, none)
  | n, _ => (n, none)

/-- The text of a URL made of a path and a query. The percent-escaping that
`(*url.URL).String` applies to the path is not modelled. -/
def urlString (path query : Bytes) : Bytes :=
  if query = [] then path else path ++ byte 0x3F :: query

/-- The handler and pattern of a match, the not-found handler when there is
none. With no pattern that names a method, no request is answered 405 by the
multiplexer itself. -/
def ofMatch (n : Option muxEntry) : Handler × Bytes :=
  match n with
  | some e => (e.h, e.pattern)
  | none => (Handler.NotFoundHandler, [])

/-- `(*ServeMux).findHandler`: the handler to use for the request and the
pattern it matched. The escaped path is what is matched; for requests other
than CONNECT it must be in canonical form, or the request is redirected to
the canonical path. -/
def ServeMux.findHandler (rel : Release) (mux : ServeMux) (r : Request) : Handler × Bytes :=
  if r.Method = lit "CONNECT" then
    match mux.matchOrRedirect (EscapedPath r) (some r) with
    | (_, some u) => (Handler.RedirectHandler (urlString u.1 u.2) rel.redirectStatus, u.1)
    | (_, none) => ofMatch (mux.matchOrRedirect (EscapedPath r) none).1
  else
    match mux.matchOrRedirect (cleanPath (EscapedPath r)) (some r) with
    | (_, some u) => (Handler.RedirectHandler (urlString u.1 u.2) rel.redirectStatus, u.1)
    | (n, none) =>
      if cleanPath (EscapedPath r) ≠ EscapedPath r then
        (Handler.RedirectHandler (urlString (cleanPath (EscapedPath r)) r.RawQuery)
          rel.redirectStatus, (ofMatch n).2)
      else ofMatch n

/-- `http.Redirect` for a target that is already a clean rooted path: the
`Location` header, a content type for GET and HEAD, and the status. The short
HTML body that accompanies a redirect of a GET request is not modelled. -/
def Redirect (s : State) (r : Request) (url : Bytes) (code : Nat) : State :=
  let hadCT := (Header.Get s.w.header (lit "Content-Type")).isSome
  let s := HeaderSet s (lit "Location") url
  let s :=
    if !hadCT && (r.Method = lit "GET" || r.Method = lit "HEAD") then
      HeaderSet s (lit "Content-Type") (lit "text/html; charset=utf-8")
    else s
  WriteHeader s code

/-- `Handler.ServeHTTP`: run the handler on a request. -/
def Handler.ServeHTTP : Handler → OS → Request → State → State
  | Handler.HandlerFunc f, os, r, s => f os r s
  | Handler.NotFoundHandler, _, _, s => Error s (lit "404 page not found") StatusNotFound
  | Handler.RedirectHandler url code, _, r, s => Redirect s r url code

/-- `(*ServeMux).ServeHTTP`: dispatch the request to the handler whose
pattern matches; the request target `*` is refused. -/
def ServeMux.ServeHTTP (rel : Release) (mux : ServeMux) (os : OS) (r : Request) (s : State) :
    State :=
  if r.RequestURI = lit "*" then
    let s :=
      if r.ProtoMajor > 1 ∨ (r.ProtoMajor = 1 ∧ r.ProtoMinor ≥ 1) then
        HeaderSet s (lit "Connection") (lit "close")
      else s
    WriteHeader s StatusBadRequest
  else (mux.findHandler rel r).1.ServeHTTP os r s

/-! ## net/http: the server in front of the multiplexer -/

/-- `Header.get` of `net/http`: the value under the key, empty if there is
none. -/
def Header.get (h : Header) (key : Bytes) : Bytes :=
  (Header.Get h key).getD []

/-- `isTokenBoundary` of `net/http`: space, comma or tab. -/
def isTokenBoundary (b : Byte) : Bool :=
  decide (b.val = 0x20 ∨ b.val = 0x2C ∨ b.val = 0x09)

/-- The lower-case form of an ASCII letter, any other byte as it is. -/
def lower (b : Byte) : Byte :=
  if 0x41 ≤ b.val ∧ b.val ≤ 0x5A then byte (b.val + 0x20) else b

/-- `ascii.EqualFold`: equality of strings up to the case of ASCII letters. -/
def EqualFold (s t : Bytes) : Bool :=
  decide (s.map lower = t.map lower)

/-- One round of the loop of `hasToken`: whether the token stands at position
`sp` of `v`, between token boundaries. -/
def hasTokenAt (v token : Bytes) (sp : Nat) : Bool :=
  match v[sp]?, token.head? with
  | some b, some t0 =>
    (decide (b = t0) || decide (b.val ||| 0x20 = t0.val))
    && (decide (sp = 0) || (match v[sp - 1]? with
                            | some c => isTokenBoundary c
                            | none => false))
    && (decide (sp + token.length = v.length) || (match v[sp + token.length]? with
                                                   | some c => isTokenBoundary c
                                                   | none => false))
    && EqualFold ((v.drop sp).take token.length) token
  | _, _ => false

/-- `hasToken` of `net/http`: whether the header value `v` has the token in
it, case-insensitively. -/
def hasToken (v token : Bytes) : Bool :=
  if v.length < token.length ∨ token = [] then false
  else if v = token then true
  else (List.range (v.length - token.length + 1)).any (hasTokenAt v token)

/-- `(*Request).expectsContinue`: whether the request carries
`Expect: 100-continue`. -/
def expectsContinue (r : Request) : Bool :=
  hasToken (Header.get r.Header (lit "Expect")) (lit "100-continue")

/-- Whether the server refuses the request for an `Expect` header that asks
for something other than `100-continue`. -/
def expectationFails (r : Request) : Bool :=
  !expectsContinue r && decide (Header.get r.Header (lit "Expect") ≠ [])

/-- `(*response).sendExpectationFailed`: status 417, the connection to be
closed. -/
def sendExpectationFailed (s : State) : State :=
  WriteHeader (HeaderSet s (lit "Connection") (lit "close")) StatusExpectationFailed

/-- `globalOptionsHandler.ServeHTTP`: the answer of the server to `OPTIONS *`,
an empty response with the implied status 200. -/
def globalOptionsHandler (s : State) : State :=
  HeaderSet s (lit "Content-Length") (lit "0")

/-- `serverHandler.ServeHTTP` with a nil handler: `OPTIONS *` is answered by
the server, every other request goes to the multiplexer; a query with a
semicolon in it is reported through the standard logger afterwards. -/
def serverHandler (rel : Release) (mux : ServeMux) (os : OS) (r : Request) (s : State) : State :=
  let s1 :=
    if r.RequestURI = lit "*" ∧ r.Method = lit "OPTIONS" then globalOptionsHandler s
    else mux.ServeHTTP rel os r s
  if byte 0x3B ∈ r.RawQuery then
    { s1 with log := s1.log ++ [lit "http: URL query contains semicolon, which is no longer a supported separator; parts of the query may be stripped when parsed; see golang.org/issue/25192"] }
  else s1

/-- What `http.ListenAndServe(":8080", nil)` does with one request that its
parser accepted: a fresh response writer; status 417 for a failed
expectation; otherwise the request goes to `serverHandler`. -/
def serve (rel : Release) (mux : ServeMux) (os : OS) (r : Request) (log : List Bytes)
    (calls : Nat) : State :=
  if expectationFails r then sendExpectationFailed (State.start log calls)
  else serverHandler rel mux os r (State.start log calls)

/-- The function `main` of the program up to the call of
`http.ListenAndServe`: the route table with `pingHandler` registered for
`/ping`, and the start-up line given to the logger. `none` would be a panic
of `http.HandleFunc`. -/
def main : Option (ServeMux × List Bytes) :=
  match HandleFunc DefaultServeMux (lit "/ping") pingHandler with
  | none => none
  | some mux => some (mux, [Sprintln [lit "Server started on 8080"]])

/-- The route table `main` builds: `pingHandler` under `/ping`, nothing else. -/
def routeTable : ServeMux :=
  { patterns := [{ h := Handler.HandlerFunc pingHandler, pattern := lit "/ping",
                   segments := [lit "ping"] }] }

/-! ## Observations on a run of the handler -/

/-- Whether a call that can fail did fail. -/
def failed (x : Except GoError Bytes) : Bool :=
  match x with
  | Except.error _ => true
  | Except.ok _ => false

/-- The handler answered 405 with the plain-text error body and logged
nothing. -/
def isMethodNotAllowed (before after : State) : Prop :=
  after.w.wroteHeader = true ∧ after.w.status = StatusMethodNotAllowed
    ∧ after.w.body = lit "Method not allowed\n" ∧ after.log = before.log

/-- The handler logged one line and left the response writer untouched. -/
def isLoggedOnly (before after : State) : Prop :=
  after.w = before.w ∧ after.log.length = before.log.length + 1

/-- The handler answered 200 with a JSON content type and logged nothing. -/
def isPong (before after : State) : Prop :=
  after.w.wroteHeader = true ∧ after.w.status = StatusOK
    ∧ after.w.contentType = some (lit "application/json") ∧ after.log = before.log

instance (before after : State) : Decidable (isMethodNotAllowed before after) := by
  unfold isMethodNotAllowed; infer_instance

instance (before after : State) : Decidable (isLoggedOnly before after) := by
  unfold isLoggedOnly; infer_instance

instance (before after : State) : Decidable (isPong before after) := by
  unfold isPong; infer_instance

/-- A request with the given method and path, sent to `localhost:8080` over
HTTP/1.1 without query, headers or body. -/
def request (method path : Bytes) : Request :=
  { Method := method, RequestURI := path, Host := lit "localhost:8080", Path := path,
    RawPath := [], RawQuery := [], ProtoMajor := 1, ProtoMinor := 1, Header := [], Body := [] }

set_option maxRecDepth 8000

/-! ## Bytes and UTF-8: lemmas -/

theorem byte_val (n : Nat) : (byte n).val = n % 256 := rfl

theorem byte_self (b : Byte) : byte b.val = b := by
  apply Fin.ext
  rw [byte_val]
  exact Nat.mod_eq_of_lt b.isLt

theorem first_size {b sz lo hi : Nat} (h : first b = some (sz, lo, hi)) :
    (sz = 2 ∧ 0xC2 ≤ b ∧ b < 0xE0 ∧ lo = 0x80 ∧ hi = 0xBF)
    ∨ (sz = 3 ∧ 0xE0 ≤ b ∧ b < 0xF0 ∧ 0x80 ≤ lo ∧ hi ≤ 0xBF ∧ (b = 0xE0 → lo = 0xA0)
        ∧ (b = 0xED → hi = 0x9F))
    ∨ (sz = 4 ∧ 0xF0 ≤ b ∧ b < 0xF5 ∧ 0x80 ≤ lo ∧ hi ≤ 0xBF ∧ (b = 0xF0 → lo = 0x90)
        ∧ (b = 0xF4 → hi = 0x8F)) := by
  unfold first at h
  split_ifs at h <;> simp only [Option.some.injEq, Prod.mk.injEq] at h <;> omega

/-- What `DecodeRuneInString` can answer on a string that starts with a byte
outside ASCII: an encoding error of width one, or a rune of two to four bytes
that are all there and that alone decide the answer. -/
theorem decode_cases (b : Byte) (rest : Bytes) (hb : ¬ b.val < 0x80) :
    DecodeRuneInString (b :: rest) = (RuneError, 1)
    ∨ (2 ≤ (DecodeRuneInString (b :: rest)).2
        ∧ (DecodeRuneInString (b :: rest)).2 ≤ rest.length + 1
        ∧ ∀ Y, DecodeRuneInString (b :: (rest.take ((DecodeRuneInString (b :: rest)).2 - 1) ++ Y))
              = DecodeRuneInString (b :: rest)) := by
  cases hf : first b.val with
  | none => left; simp [DecodeRuneInString, hb, hf]
  | some v =>
    obtain ⟨sz, lo, hi⟩ := v
    have hsz := first_size hf
    rcases rest with _ | ⟨s1, t1⟩
    · left; simp [DecodeRuneInString, hb, hf]
    by_cases h1 : s1.val < lo ∨ hi < s1.val
    · left
      by_cases h0 : t1.length + 1 + 1 < sz <;> simp [DecodeRuneInString, hb, hf, h1, h0]
    by_cases h2 : sz ≤ 2
    · right
      have e2 : sz = 2 := by omega
      subst e2
      have h0 : ¬ t1.length + 1 + 1 < 2 := by omega
      have hd : DecodeRuneInString (b :: s1 :: t1) = (b.val % 32 * 64 + s1.val % 64, 2) := by
        simp [DecodeRuneInString, hb, hf, h1, h0]
      rw [hd]
      refine ⟨by simp, by simp, fun Y => ?_⟩
      have hY : ¬ Y.length + 1 + 1 < 2 := by omega
      simp [DecodeRuneInString, hb, hf, h1, hY]
    rcases t1 with _ | ⟨s2, t2⟩
    · left
      have h0 : 0 + 1 + 1 < sz := by omega
      simp [DecodeRuneInString, hb, hf, h0]
    by_cases h3 : s2.val < 0x80 ∨ 0xBF < s2.val
    · left
      by_cases h0 : t2.length + 1 + 1 + 1 < sz <;> simp [DecodeRuneInString, hb, hf, h1, h0, h2, h3]
    by_cases h4 : sz ≤ 3
    · right
      have e3 : sz = 3 := by omega
      subst e3
      have h0 : ¬ t2.length + 1 + 1 + 1 < 3 := by omega
      have hd : DecodeRuneInString (b :: s1 :: s2 :: t2)
          = (b.val % 16 * 4096 + s1.val % 64 * 64 + s2.val % 64, 3) := by
        simp [DecodeRuneInString, hb, hf, h1, h0, h3]
      rw [hd]
      refine ⟨by simp, by simp, fun Y => ?_⟩
      have hY : ¬ Y.length + 1 + 1 + 1 < 3 := by omega
      simp [DecodeRuneInString, hb, hf, h1, h3, hY]
    have e4 : sz = 4 := by omega
    subst e4
    rcases t2 with _ | ⟨s3, t3⟩
    · left
      simp [DecodeRuneInString, hb, hf]
    by_cases h5 : s3.val < 0x80 ∨ 0xBF < s3.val
    · left
      simp [DecodeRuneInString, hb, hf, h1, h3, h5]
    · right
      have hd : DecodeRuneInString (b :: s1 :: s2 :: s3 :: t3)
          = (b.val % 8 * 262144 + s1.val % 64 * 4096 + s2.val % 64 * 64 + s3.val % 64, 4) := by
        simp [DecodeRuneInString, hb, hf, h1, h3, h5]
      rw [hd]
      refine ⟨by simp, by simp, fun Y => ?_⟩
      simp [DecodeRuneInString, hb, hf, h1, h3, h5]

/-- Only the first `UTFMax` bytes matter to `DecodeRuneInString`. -/
theorem decode_take (s : Bytes) :
    DecodeRuneInString (s.take UTFMax) = DecodeRuneInString s := by
  rcases s with _ | ⟨s0, _ | ⟨s1, _ | ⟨s2, _ | ⟨s3, t⟩⟩⟩⟩ <;> try rfl
  simp only [UTFMax, List.take_succ_cons, List.take_zero]
  by_cases h0 : s0.val < 0x80
  · simp [DecodeRuneInString, h0]
  · cases hf : first s0.val with
    | none => simp [DecodeRuneInString, h0, hf]
    | some v =>
      obtain ⟨sz, lo, hi⟩ := v
      have hsz := first_size hf
      have e1 : ¬ (0 + 1 + 1 + 1 + 1 < sz) := by omega
      have e2 : ¬ (t.length + 1 + 1 + 1 + 1 < sz) := by omega
      simp [DecodeRuneInString, h0, hf, e1, e2]

/-! ## Reading back what the encoder wrote -/

theorem lit_u00 : lit "\\u00" = [byte 0x5C, byte 0x75, byte 0x30, byte 0x30] := by decide

theorem unquote_escapeByte_aux (v : Nat) (hb : v < 0x80) (hs : htmlSafeSet v = false)
    (n : Nat) (X : Bytes) :
    unquoteLoop (n + 1) (escapeByte (byte v) ++ X) = prepend [byte v] (unquoteLoop n X) := by
  interval_cases v <;> first | (exact absurd hs (by decide)) | rfl

/-- Reading back one escaped ASCII byte. -/
theorem unquote_escapeByte (b : Byte) (hb : b.val < 0x80) (hs : htmlSafeSet b.val = false)
    (n : Nat) (X : Bytes) :
    unquoteLoop (n + 1) (escapeByte b ++ X) = prepend [b] (unquoteLoop n X) := by
  have := unquote_escapeByte_aux b.val hb hs n X
  rwa [byte_self] at this

theorem escapeByte_length (b : Byte) : 1 ≤ (escapeByte b).length := by
  unfold escapeByte
  split_ifs <;> first | decide | simp [lit_u00]

theorem unquote_ufffd (n : Nat) (X : Bytes) :
    unquoteLoop (n + 1) (lit "\\ufffd" ++ X) = prepend (EncodeRune RuneError) (unquoteLoop n X) := by
  rfl

theorem unquote_u2028 (n : Nat) (X : Bytes) :
    unquoteLoop (n + 1) (lit "\\u202" ++ hex (0x2028 % 16) :: X)
      = prepend (EncodeRune 0x2028) (unquoteLoop n X) := by
  rfl

theorem unquote_u2029 (n : Nat) (X : Bytes) :
    unquoteLoop (n + 1) (lit "\\u202" ++ hex (0x2029 % 16) :: X)
      = prepend (EncodeRune 0x2029) (unquoteLoop n X) := by
  rfl

/-- Reading back what `appendStringLoop` wrote, up to the closing quote, gives
the source string with its invalid bytes replaced. -/
theorem unquote_appendStringLoop (fuel : Nat) :
    ∀ (s tail : Bytes) (n : Nat), s.length ≤ fuel →
      (appendStringLoop fuel s).length + tail.length + 1 < n →
      unquoteLoop n (appendStringLoop fuel s ++ byte 0x22 :: tail)
        = some (ToValidLoop fuel s, tail) := by
  induction fuel with
  | zero =>
    intro s tail n _ hn
    obtain ⟨m, rfl⟩ : ∃ m, n = m + 1 := ⟨n - 1, by omega⟩
    rfl
  | succ fuel ih =>
    intro s tail n hs hn
    obtain ⟨m, rfl⟩ : ∃ m, n = m + 1 := ⟨n - 1, by omega⟩
    rcases s with _ | ⟨b, rest⟩
    · rfl
    have hrest : rest.length ≤ fuel := by simpa using hs
    by_cases hb : b.val < 0x80
    · by_cases hsafe : htmlSafeSet b.val = true
      · have hq : ¬ b.val = 0x22 := by
          intro h; rw [h] at hsafe; exact absurd hsafe (by decide)
        have hbs : ¬ b.val = 0x5C := by
          intro h; rw [h] at hsafe; exact absurd hsafe (by decide)
        have hc : ¬ b.val < 0x20 := by
          intro h
          simp only [htmlSafeSet, decide_eq_true_eq] at hsafe
          omega
        simp only [appendStringLoop, hb, hsafe, if_true, List.cons_append, List.length_cons] at hn ⊢
        simp only [unquoteLoop, hq, hbs, hc, hb, if_false, if_true, ToValidLoop]
        rw [ih rest tail m hrest (by omega)]
        rfl
      · have hsafe2 : htmlSafeSet b.val = false := by simpa using hsafe
        simp only [appendStringLoop, hb, hsafe2, if_true, List.append_assoc, List.length_append,
          Bool.false_eq_true, if_false] at hn ⊢
        have hl := escapeByte_length b
        rw [unquote_escapeByte b hb hsafe2, ih rest tail m hrest (by omega)]
        simp only [ToValidLoop, hb, if_true]
        rfl
    · have hdt := decode_take (b :: rest)
      rcases decode_cases b rest hb with hd | ⟨h2, hlen, hY⟩
      · simp only [appendStringLoop, hb, if_false, hdt, hd, and_self, if_true, List.append_assoc,
          List.length_append] at hn ⊢
        have hl : (lit "\\ufffd").length = 6 := by decide
        rw [unquote_ufffd, ih rest tail m hrest (by omega)]
        simp only [ToValidLoop, hb, if_false, hd]
        rfl
      · have hne : ¬ ((DecodeRuneInString (b :: rest)).1 = RuneError
            ∧ (DecodeRuneInString (b :: rest)).2 = 1) := by omega
        have hdrop : (rest.drop ((DecodeRuneInString (b :: rest)).2 - 1)).length ≤ fuel := by
          simp only [List.length_drop]; omega
        by_cases hls : (DecodeRuneInString (b :: rest)).1 = 0x2028
            ∨ (DecodeRuneInString (b :: rest)).1 = 0x2029
        · simp only [appendStringLoop, hb, if_false, hdt, hne, hls, if_true, List.append_assoc,
            List.length_append, List.cons_append, List.length_cons] at hn ⊢
          have hl : (lit "\\u202").length = 5 := by decide
          simp only [ToValidLoop, hb, if_false]
          rcases hls with h | h
          · rw [h, unquote_u2028, ih _ tail m hdrop (by omega)]
            rfl
          · rw [h, unquote_u2029, ih _ tail m hdrop (by omega)]
            rfl
        · simp only [appendStringLoop, hb, if_false, hdt, hne, hls, List.append_assoc,
            List.length_append] at hn ⊢
          obtain ⟨k, hk⟩ : ∃ k, (DecodeRuneInString (b :: rest)).2 = k + 1 :=
            ⟨(DecodeRuneInString (b :: rest)).2 - 1, by omega⟩
          have hk1 : (DecodeRuneInString (b :: rest)).2 - 1 = k := by omega
          rw [hk1] at hY hdrop
          rw [hk] at hn ⊢
          simp only [List.take_succ_cons, List.cons_append, List.length_cons,
            List.length_take] at hn ⊢
          have hq : ¬ b.val = 0x22 := by omega
          have hbs : ¬ b.val = 0x5C := by omega
          have hc : ¬ b.val < 0x20 := by omega
          have hmin : min k rest.length = k := by omega
          simp only [Nat.add_sub_cancel] at hn ⊢
          simp only [unquoteLoop, hq, hbs, hc, hb, if_false]
          rw [hY, hk]
          simp only [Nat.add_sub_cancel]
          have hdr : List.drop k (List.take k rest ++ (appendStringLoop fuel (List.drop k rest)
              ++ byte 0x22 :: tail)) = appendStringLoop fuel (List.drop k rest) ++ byte 0x22 :: tail := by
            rw [List.drop_append_of_le_length (by simp [hmin])]
            simp [List.drop_take]
          rw [hdr, ih _ tail m hdrop (by omega)]
          simp only [ToValidLoop, hb, if_false, hk, Nat.add_sub_cancel]
          rfl

theorem byte_eq (n : Nat) (b : Byte) (h : n = b.val) : byte n = b := by
  subst h; exact byte_self b

/-- Encoding the rune that was decoded from a valid sequence gives the
sequence back. -/
theorem encode_decode (b : Byte) (rest : Bytes) (hb : ¬ b.val < 0x80)
    (hne : DecodeRuneInString (b :: rest) ≠ (RuneError, 1)) :
    EncodeRune (DecodeRuneInString (b :: rest)).1
      = b :: rest.take ((DecodeRuneInString (b :: rest)).2 - 1) := by
  cases hf : first b.val with
  | none => exact absurd (by simp [DecodeRuneInString, hb, hf]) hne
  | some v =>
    obtain ⟨sz, lo, hi⟩ := v
    have hsz := first_size hf
    rcases rest with _ | ⟨s1, t1⟩
    · exact absurd (by simp [DecodeRuneInString, hb, hf]) hne
    by_cases h1 : s1.val < lo ∨ hi < s1.val
    · refine absurd ?_ hne
      by_cases h0 : t1.length + 1 + 1 < sz <;> simp [DecodeRuneInString, hb, hf, h1, h0]
    by_cases h2 : sz ≤ 2
    · have e2 : sz = 2 := by omega
      subst e2
      have h0 : ¬ t1.length + 1 + 1 < 2 := by omega
      have hd : DecodeRuneInString (b :: s1 :: t1) = (b.val % 32 * 64 + s1.val % 64, 2) := by
        simp [DecodeRuneInString, hb, hf, h1, h0]
      rw [hd]
      have hr1 : ¬ (b.val % 32 * 64 + s1.val % 64 < 0x80) := by omega
      have hr2 : b.val % 32 * 64 + s1.val % 64 ≤ 0x7FF := by omega
      simp only [EncodeRune, hr1, hr2, if_false, if_true, List.take_succ_cons, List.take_zero,
        Nat.add_sub_cancel]
      rw [byte_eq _ b (by omega), byte_eq _ s1 (by omega)]
    rcases t1 with _ | ⟨s2, t2⟩
    · refine absurd ?_ hne
      have h0 : 0 + 1 + 1 < sz := by omega
      simp [DecodeRuneInString, hb, hf, h0]
    by_cases h3 : s2.val < 0x80 ∨ 0xBF < s2.val
    · refine absurd ?_ hne
      by_cases h0 : t2.length + 1 + 1 + 1 < sz <;> simp [DecodeRuneInString, hb, hf, h1, h0, h2, h3]
    by_cases h4 : sz ≤ 3
    · have e3 : sz = 3 := by omega
      subst e3
      have h0 : ¬ t2.length + 1 + 1 + 1 < 3 := by omega
      have hd : DecodeRuneInString (b :: s1 :: s2 :: t2)
          = (b.val % 16 * 4096 + s1.val % 64 * 64 + s2.val % 64, 3) := by
        simp [DecodeRuneInString, hb, hf, h1, h0, h3]
      rw [hd]
      have hr1 : ¬ (b.val % 16 * 4096 + s1.val % 64 * 64 + s2.val % 64 < 0x80) := by omega
      have hr2 : ¬ (b.val % 16 * 4096 + s1.val % 64 * 64 + s2.val % 64 ≤ 0x7FF) := by omega
      have hr3 : ¬ (0x10FFFF < b.val % 16 * 4096 + s1.val % 64 * 64 + s2.val % 64
          ∨ (0xD800 ≤ b.val % 16 * 4096 + s1.val % 64 * 64 + s2.val % 64
            ∧ b.val % 16 * 4096 + s1.val % 64 * 64 + s2.val % 64 ≤ 0xDFFF)) := by omega
      have hr4 : b.val % 16 * 4096 + s1.val % 64 * 64 + s2.val % 64 ≤ 0xFFFF := by omega
      simp only [EncodeRune, hr1, hr2, hr3, hr4, if_false, if_true, List.take_succ_cons,
        List.take_zero, Nat.add_sub_cancel]
      rw [byte_eq _ b (by omega), byte_eq _ s1 (by omega), byte_eq _ s2 (by omega)]
    have e4 : sz = 4 := by omega
    subst e4
    rcases t2 with _ | ⟨s3, t3⟩
    · exact absurd (by simp [DecodeRuneInString, hb, hf]) hne
    by_cases h5 : s3.val < 0x80 ∨ 0xBF < s3.val
    · exact absurd (by simp [DecodeRuneInString, hb, hf, h1, h3, h5]) hne
    · have hd : DecodeRuneInString (b :: s1 :: s2 :: s3 :: t3)
          = (b.val % 8 * 262144 + s1.val % 64 * 4096 + s2.val % 64 * 64 + s3.val % 64, 4) := by
        simp [DecodeRuneInString, hb, hf, h1, h3, h5]
      rw [hd]
      generalize hr : b.val % 8 * 262144 + s1.val % 64 * 4096 + s2.val % 64 * 64 + s3.val % 64 = r
      have hr1 : ¬ (r < 0x80) := by omega
      have hr2 : ¬ (r ≤ 0x7FF) := by omega
      have hr3 : ¬ (0x10FFFF < r ∨ (0xD800 ≤ r ∧ r ≤ 0xDFFF)) := by omega
      have hr4 : ¬ (r ≤ 0xFFFF) := by omega
      simp only [EncodeRune, hr1, hr2, hr3, hr4, if_false, List.take_succ_cons,
        List.take_zero, Nat.add_sub_cancel]
      rw [byte_eq _ b (by omega), byte_eq _ s1 (by omega), byte_eq _ s2 (by omega),
        byte_eq _ s3 (by omega)]

theorem toValid_cons_ascii (b : Byte) (s : Bytes) (hb : b.val < 0x80) :
    ToValid (b :: s) = b :: ToValid s := by
  simp [ToValid, ToValidLoop, hb]

theorem toValid_ascii_append (p s : Bytes) (hp : ∀ b ∈ p, b.val < 0x80) :
    ToValid (p ++ s) = p ++ ToValid s := by
  induction p with
  | nil => rfl
  | cons b p ih =>
    rw [List.cons_append, toValid_cons_ascii _ _ (hp b (List.mem_cons_self _ _)),
      ih (fun c hc => hp c (List.mem_cons_of_mem _ hc)), List.cons_append]

theorem validString_cons_ascii (b : Byte) (s : Bytes) (hb : b.val < 0x80) :
    ValidString (b :: s) = ValidString s := by
  simp [ValidString, ValidStringLoop, hb]

theorem validString_ascii_append (p s : Bytes) (hp : ∀ b ∈ p, b.val < 0x80) :
    ValidString (p ++ s) = ValidString s := by
  induction p with
  | nil => rfl
  | cons b p ih =>
    rw [List.cons_append, validString_cons_ascii _ _ (hp b (List.mem_cons_self _ _)),
      ih (fun c hc => hp c (List.mem_cons_of_mem _ hc))]

/-- On valid UTF-8 the conversion through runes changes nothing. -/
theorem toValidLoop_of_valid (fuel : Nat) :
    ∀ s : Bytes, s.length ≤ fuel → ValidStringLoop fuel s = true → ToValidLoop fuel s = s := by
  induction fuel with
  | zero =>
    intro s hs _
    have : s = [] := List.eq_nil_of_length_eq_zero (by omega)
    subst this; rfl
  | succ fuel ih =>
    intro s hs hv
    rcases s with _ | ⟨b, rest⟩
    · rfl
    have hrest : rest.length ≤ fuel := by simpa using hs
    by_cases hb : b.val < 0x80
    · simp only [ValidStringLoop, hb, if_true] at hv
      simp only [ToValidLoop, hb, if_true, ih rest hrest hv]
    · simp only [ValidStringLoop, hb, if_false] at hv
      split_ifs at hv with he
      rcases decode_cases b rest hb with hd | ⟨h2, hlen, _⟩
      · exact absurd (by rw [hd]; exact ⟨rfl, rfl⟩) he
      · have hne : DecodeRuneInString (b :: rest) ≠ (RuneError, 1) := by
          intro h; rw [h] at h2; omega
        have hdrop : (rest.drop ((DecodeRuneInString (b :: rest)).2 - 1)).length ≤ fuel := by
          simp only [List.length_drop]; omega
        simp only [ToValidLoop, hb, if_false, encode_decode b rest hb hne, ih _ hdrop hv,
          List.cons_append, List.take_append_drop]

theorem toValid_of_valid (s : Bytes) (h : ValidString s = true) : ToValid s = s :=
  toValidLoop_of_valid s.length s (Nat.le_refl _) h

/-- Bytes of `htmlSafeSet` are written as they are. -/
theorem appendStringLoop_safe (fuel : Nat) :
    ∀ s : Bytes, s.length ≤ fuel → (∀ b ∈ s, htmlSafeSet b.val = true) →
      appendStringLoop fuel s = s := by
  induction fuel with
  | zero =>
    intro s hs _
    have : s = [] := List.eq_nil_of_length_eq_zero (by omega)
    subst this; rfl
  | succ fuel ih =>
    intro s hs hsafe
    rcases s with _ | ⟨b, rest⟩
    · rfl
    have hrest : rest.length ≤ fuel := by simpa using hs
    have hb := hsafe b (List.mem_cons_self _ _)
    have hlt : b.val < 0x80 := by
      simp only [htmlSafeSet, decide_eq_true_eq] at hb
      omega
    simp only [appendStringLoop, hlt, hb, if_true,
      ih rest hrest (fun c hc => hsafe c (List.mem_cons_of_mem _ hc))]

theorem parseString_appendStringLoop (s tail : Bytes) :
    parseString (appendStringLoop s.length s ++ byte 0x22 :: tail) = some (ToValid s, tail) := by
  unfold parseString ToValid
  apply unquote_appendStringLoop s.length s tail _ (Nat.le_refl _)
  simp only [List.length_append, List.length_cons]
  omega

theorem skipWS_cons (b : Byte) (t : Bytes)
    (h : ¬ (b.val = 0x20 ∨ b.val = 0x09 ∨ b.val = 0x0A ∨ b.val = 0x0D)) :
    skipWS (b :: t) = b :: t := by
  simp only [skipWS, h, if_false]

/-- Reading back a marshalled `Response`: an object with the one member
`message`, whose value is the message with its invalid bytes replaced. -/
theorem parseValue_marshal (v : Response) (fuel : Nat) :
    parseValue (fuel + 3) (Response.marshal v ++ [byte 0x0A])
      = some (JSON.object [(lit "message", JSON.string (ToValid v.Message))], [byte 0x0A]) := by
  have hk : ToValid (lit "message") = lit "message" := by decide
  simp only [Response.marshal, appendString, List.cons_append, List.append_assoc,
    List.nil_append]
  rw [parseValue]
  rw [skipWS_cons _ _ (by decide)]
  simp only [show ¬ (byte 0x7B).val = 0x22 from by decide, show (byte 0x7B).val = 0x7B from rfl,
    if_true, if_false]
  rw [skipWS_cons _ _ (by decide)]
  simp only [show ¬ (byte 0x22).val = 0x7D from by decide, if_false]
  rw [parseMembers]
  rw [skipWS_cons _ _ (by decide)]
  simp only [show (byte 0x22).val = 0x22 from rfl, if_true]
  rw [parseString_appendStringLoop, hk]
  simp only
  rw [skipWS_cons _ _ (by decide)]
  simp only [show (byte 0x3A).val = 0x3A from rfl, if_true]
  rw [parseValue]
  rw [skipWS_cons _ _ (by decide)]
  simp only [show (byte 0x22).val = 0x22 from rfl, if_true]
  rw [parseString_appendStringLoop]
  simp only [Option.map_some']
  rfl

theorem unmarshal_marshal (v : Response) :
    Unmarshal (Response.marshal v ++ [byte 0x0A])
      = some (JSON.object [(lit "message", JSON.string (ToValid v.Message))]) := by
  unfold Unmarshal
  obtain ⟨f, hf⟩ : ∃ f, (Response.marshal v ++ [byte 0x0A]).length + 1 = f + 3 := by
    refine ⟨(Response.marshal v ++ [byte 0x0A]).length - 2, ?_⟩
    simp only [Response.marshal, List.length_append, List.length_cons, List.length_nil]
    omega
  rw [hf, parseValue_marshal]
  rfl

theorem messageOf_marshal (v : Response) :
    messageOf (Response.marshal v ++ [byte 0x0A]) = some (ToValid v.Message) := by
  unfold messageOf
  rw [unmarshal_marshal]
  simp

/-! ## The three paths of `pingHandler` -/

theorem pingHandler_not_get (os : OS) (r : Request) (log : List Bytes) (calls : Nat)
    (hm : r.Method ≠ MethodGet) :
    pingHandler os r (State.start log calls)
      = { w := { header := [(lit "Content-Type", lit "text/plain; charset=utf-8"),
                            (lit "X-Content-Type-Options", lit "nosniff")]
                 wroteHeader := true
                 status := StatusMethodNotAllowed
                 sent := [(lit "Content-Type", lit "text/plain; charset=utf-8"),
                          (lit "X-Content-Type-Options", lit "nosniff")]
                 body := lit "Method not allowed\n"
                 explicit := true }
          log := log
          hostnameCalls := calls } := by
  simp only [pingHandler, hm, ne_eq, not_false_eq_true, if_true]
  rfl

theorem pingHandler_get_error (os : OS) (r : Request) (log : List Bytes) (calls : Nat)
    (e : GoError) (hm : r.Method = MethodGet) (hh : os.Hostname = Except.error e) :
    pingHandler os r (State.start log calls)
      = { w := ResponseWriter.fresh
          log := log ++ [Sprintln [lit "Error : %v", e.Error]]
          hostnameCalls := calls + 1 } := by
  simp only [pingHandler, hm, ne_eq, not_true_eq_false, if_false, Hostname, hh]
  rfl

theorem pingHandler_get_ok (os : OS) (r : Request) (log : List Bytes) (calls : Nat)
    (h : Bytes) (hm : r.Method = MethodGet) (hh : os.Hostname = Except.ok h) :
    pingHandler os r (State.start log calls)
      = { w := { header := [(lit "Content-Type", lit "application/json")]
                 wroteHeader := true
                 status := StatusOK
                 sent := [(lit "Content-Type", lit "application/json")]
                 body := Response.marshal (response h) ++ [byte 0x0A]
                 explicit := false }
          log := log
          hostnameCalls := calls + 1 } := by
  simp only [pingHandler, hm, ne_eq, not_true_eq_false, if_false, Hostname, hh]
  rfl

theorem pong_ascii : ∀ b ∈ lit "pong from server : ", b.val < 0x80 := by decide

theorem pong_safe : ∀ b ∈ lit "pong from server : ", htmlSafeSet b.val = true := by decide

theorem toValid_message (h : Bytes) :
    ToValid (response h).Message = lit "pong from server : " ++ ToValid h :=
  toValid_ascii_append _ _ pong_ascii

/-! ## Properties of `pingHandler` -/

/-- C1 (as amended): for every GET request and every host name `h` that
`os.Hostname` returns without error, `pingHandler` answers with status 200
that it did not write itself, the content type `application/json`, and a body
that decodes to an object with the one member `message`, whose value is
`"pong from server : "` followed by `h` with every byte that is not valid
UTF-8 replaced by U+FFFD; that is `h` itself when `h` is valid UTF-8. -/
theorem pingHandler_get_ok_response (os : OS) (r : Request) (log : List Bytes) (calls : Nat)
    (h : Bytes) (hm : r.Method = MethodGet) (hh : os.Hostname = Except.ok h) :
    (pingHandler os r (State.start log calls)).w.finalStatus = 200
    ∧ (pingHandler os r (State.start log calls)).w.explicit = false
    ∧ (pingHandler os r (State.start log calls)).w.contentType = some (lit "application/json")
    ∧ messageOf (pingHandler os r (State.start log calls)).w.body
        = some (lit "pong from server : " ++ ToValid h)
    ∧ (ValidString h = true →
        messageOf (pingHandler os r (State.start log calls)).w.body
          = some (lit "pong from server : " ++ h)) := by
  rw [pingHandler_get_ok os r log calls h hm hh]
  have hd : messageOf (Response.marshal (response h) ++ [byte 0x0A])
      = some (lit "pong from server : " ++ ToValid h) := by
    rw [messageOf_marshal, toValid_message]
  refine ⟨rfl, rfl, rfl, hd, ?_⟩
  intro hv
  rw [toValid_of_valid h hv] at hd
  exact hd

/-- C1, witness: a GET request on the host `worker-1`. -/
theorem pingHandler_get_ok_response_witness :
    (request (lit "GET") (lit "/ping")).Method = MethodGet
    ∧ (pingHandler (OS.mk (Except.ok (lit "worker-1"))) (request (lit "GET") (lit "/ping"))
        (State.start [] 0)).w.finalStatus = 200
    ∧ messageOf (pingHandler (OS.mk (Except.ok (lit "worker-1")))
        (request (lit "GET") (lit "/ping")) (State.start [] 0)).w.body
        = some (lit "pong from server : " ++ lit "worker-1") :=
  have t := pingHandler_get_ok_response (OS.mk (Except.ok (lit "worker-1")))
    (request (lit "GET") (lit "/ping")) [] 0 (lit "worker-1") (by decide) rfl
  ⟨by decide, t.1, t.2.2.2.2 (by decide)⟩

/-- C1, counterexample: on a host whose name is the single byte 0xFF, which
is not valid UTF-8, the answer to a GET request has status 200 and the JSON
content type, but its body decodes to a message that ends in U+FFFD, not in
the host name. -/
theorem pingHandler_invalid_hostname_message :
    (request (lit "GET") (lit "/ping")).Method = MethodGet
    ∧ (pingHandler (OS.mk (Except.ok [byte 0xFF])) (request (lit "GET") (lit "/ping"))
        (State.start [] 0)).w.body
        = lit "\x7b\"message\":\"pong from server : \\ufffd\"\x7d\n"
    ∧ messageOf (pingHandler (OS.mk (Except.ok [byte 0xFF]))
        (request (lit "GET") (lit "/ping")) (State.start [] 0)).w.body
        = some (lit "pong from server : " ++ [byte 0xEF, byte 0xBF, byte 0xBD])
    ∧ messageOf (pingHandler (OS.mk (Except.ok [byte 0xFF]))
        (request (lit "GET") (lit "/ping")) (State.start [] 0)).w.body
        ≠ some (lit "pong from server : " ++ [byte 0xFF]) := by
  decide

/-- C2 (as amended): for every GET request on which the host name resolves,
the status is 200, the content type is `application/json`, and the body
decodes to an object with the one member `message` whose value starts with
`"pong from server : "`; when the host name does not resolve, nothing is
written to the response. -/
theorem pingHandler_get_message_start (os : OS) (r : Request) (log : List Bytes) (calls : Nat)
    (hm : r.Method = MethodGet) :
    (∀ h, os.Hostname = Except.ok h →
      (pingHandler os r (State.start log calls)).w.finalStatus = 200
      ∧ (pingHandler os r (State.start log calls)).w.contentType = some (lit "application/json")
      ∧ ∃ v, messageOf (pingHandler os r (State.start log calls)).w.body = some v
          ∧ lit "pong from server : " <+: v)
    ∧ (∀ e, os.Hostname = Except.error e →
      (pingHandler os r (State.start log calls)).w = ResponseWriter.fresh) := by
  constructor
  · intro h hh
    rw [pingHandler_get_ok os r log calls h hm hh]
    refine ⟨rfl, rfl, lit "pong from server : " ++ ToValid h, ?_, ToValid h, rfl⟩
    rw [messageOf_marshal, toValid_message]
  · intro e hh
    rw [pingHandler_get_error os r log calls e hm hh]

/-- C2, witness: a GET request on a host whose name is not valid UTF-8. -/
theorem pingHandler_get_message_start_witness :
    (request (lit "GET") (lit "/ping")).Method = MethodGet
    ∧ ∃ v, messageOf (pingHandler (OS.mk (Except.ok [byte 0xC3]))
          (request (lit "GET") (lit "/ping")) (State.start [] 0)).w.body = some v
        ∧ lit "pong from server : " <+: v :=
  ⟨by decide,
    ((pingHandler_get_message_start (OS.mk (Except.ok [byte 0xC3]))
      (request (lit "GET") (lit "/ping")) [] 0 (by decide)).1 [byte 0xC3] rfl).2.2⟩

/-- C2, counterexample: a GET request while `os.Hostname` fails gets no
content type and an empty body, which does not decode. -/
theorem pingHandler_get_hostname_error_not_json :
    (request (lit "GET") (lit "/ping")).Method = MethodGet
    ∧ (pingHandler (OS.mk (Except.error (GoError.mk (lit "uname: function not implemented"))))
        (request (lit "GET") (lit "/ping")) (State.start [] 0)).w.contentType = none
    ∧ (pingHandler (OS.mk (Except.error (GoError.mk (lit "uname: function not implemented"))))
        (request (lit "GET") (lit "/ping")) (State.start [] 0)).w.body = []
    ∧ messageOf
        (pingHandler (OS.mk (Except.error (GoError.mk (lit "uname: function not implemented"))))
          (request (lit "GET") (lit "/ping")) (State.start [] 0)).w.body = none := by
  decide

/-- C3: for every request whose method is not GET, whatever its other
fields, `pingHandler` answers with status 405 and the body
`"Method not allowed\n"`, with a plain-text content type; the body is not
JSON and the content type is not `application/json`. -/
theorem pingHandler_not_get_response (os : OS) (r : Request) (log : List Bytes) (calls : Nat)
    (hm : r.Method ≠ MethodGet) :
    (pingHandler os r (State.start log calls)).w.finalStatus = 405
    ∧ (pingHandler os r (State.start log calls)).w.body = lit "Method not allowed\n"
    ∧ (pingHandler os r (State.start log calls)).w.contentType
        = some (lit "text/plain; charset=utf-8")
    ∧ (pingHandler os r (State.start log calls)).w.contentType ≠ some (lit "application/json")
    ∧ Header.Get (pingHandler os r (State.start log calls)).w.header (lit "Content-Type")
        ≠ some (lit "application/json")
    ∧ (Unmarshal (pingHandler os r (State.start log calls)).w.body).isNone = true := by
  rw [pingHandler_not_get os r log calls hm]
  have hne : some (lit "text/plain; charset=utf-8") ≠ some (lit "application/json") := by decide
  exact ⟨rfl, rfl, rfl, hne, hne, rfl⟩

/-- C3, witness: a POST request with a body. -/
theorem pingHandler_not_get_response_witness :
    ({ request (lit "POST") (lit "/ping") with Body := lit "x" } : Request).Method ≠ MethodGet
    ∧ (pingHandler (OS.mk (Except.ok (lit "worker-1")))
        { request (lit "POST") (lit "/ping") with Body := lit "x" } (State.start [] 0)).w.finalStatus
        = 405
    ∧ (pingHandler (OS.mk (Except.ok (lit "worker-1")))
        { request (lit "POST") (lit "/ping") with Body := lit "x" } (State.start [] 0)).w.body
        = lit "Method not allowed\n" :=
  have t := pingHandler_not_get_response (OS.mk (Except.ok (lit "worker-1")))
    { request (lit "POST") (lit "/ping") with Body := lit "x" } [] 0 (by decide)
  ⟨by decide, t.1, t.2.1⟩

/-- C4: for every GET request on which `os.Hostname` fails with error `e`,
`pingHandler` gives the logger one line that contains the text of `e`, and
returns with the response writer untouched: no status, no header, no body. -/
theorem pingHandler_hostname_error (os : OS) (r : Request) (log : List Bytes) (calls : Nat)
    (e : GoError) (hm : r.Method = MethodGet) (hh : os.Hostname = Except.error e) :
    (pingHandler os r (State.start log calls)).log
        = log ++ [lit "Error : %v " ++ e.Error ++ lit "\n"]
    ∧ e.Error <:+: lit "Error : %v " ++ e.Error ++ lit "\n"
    ∧ (pingHandler os r (State.start log calls)).w = ResponseWriter.fresh
    ∧ (pingHandler os r (State.start log calls)).w.wroteHeader = false
    ∧ (pingHandler os r (State.start log calls)).w.header = []
    ∧ (pingHandler os r (State.start log calls)).w.body = [] := by
  rw [pingHandler_get_error os r log calls e hm hh]
  refine ⟨?_, ⟨lit "Error : %v ", lit "\n", rfl⟩, rfl, rfl, rfl, rfl⟩
  have : Sprintln [lit "Error : %v", e.Error] = lit "Error : %v " ++ e.Error ++ lit "\n" := by
    have h1 : lit "Error : %v " = lit "Error : %v" ++ [byte 0x20] := by decide
    have h2 : lit "\n" = [byte 0x0A] := by decide
    simp only [Sprintln, h1, h2, List.append_assoc, List.cons_append, List.nil_append]
  rw [this]

/-- C4, witness: a GET request while `os.Hostname` fails. -/
theorem pingHandler_hostname_error_witness :
    (request (lit "GET") (lit "/ping")).Method = MethodGet
    ∧ (pingHandler (OS.mk (Except.error (GoError.mk (lit "boom"))))
        (request (lit "GET") (lit "/ping")) (State.start [] 0)).log
        = [lit "Error : %v boom\n"]
    ∧ (pingHandler (OS.mk (Except.error (GoError.mk (lit "boom"))))
        (request (lit "GET") (lit "/ping")) (State.start [] 0)).w = ResponseWriter.fresh :=
  have t := pingHandler_hostname_error (OS.mk (Except.error (GoError.mk (lit "boom"))))
    (request (lit "GET") (lit "/ping")) [] 0 (GoError.mk (lit "boom")) (by decide) rfl
  ⟨by decide, t.1.trans (by decide), t.2.2.1⟩

/-- C5 (as amended): for every host name `h`, the body of the answer to a GET
request is the JSON object that `encoding/json` marshals the response to,
with the message as a JSON string literal, followed by a newline; when `h`
has only bytes that the encoder writes as they are, the body is exactly
`{"message":"pong from server : h"}` and a newline, `h` verbatim. -/
theorem pingHandler_get_body (os : OS) (r : Request) (log : List Bytes) (calls : Nat)
    (h : Bytes) (hm : r.Method = MethodGet) (hh : os.Hostname = Except.ok h) :
    (pingHandler os r (State.start log calls)).w.body
        = lit "\x7b\"message\":" ++ appendString (lit "pong from server : " ++ h) ++ lit "\x7d\n"
    ∧ ((∀ b ∈ h, htmlSafeSet b.val = true) →
        (pingHandler os r (State.start log calls)).w.body
          = lit "\x7b\"message\":\"pong from server : " ++ h ++ lit "\"\x7d\n") := by
  rw [pingHandler_get_ok os r log calls h hm hh]
  have h1 : lit "\x7b\"message\":" = byte 0x7B :: appendString (lit "message") ++ [byte 0x3A] := by
    decide
  have h2 : lit "\x7d\n" = [byte 0x7D, byte 0x0A] := by decide
  have hbody : Response.marshal (response h) ++ [byte 0x0A]
      = lit "\x7b\"message\":" ++ appendString (lit "pong from server : " ++ h) ++ lit "\x7d\n" := by
    simp only [Response.marshal, response, h1, h2, List.append_assoc, List.cons_append,
      List.nil_append]
  refine ⟨hbody, ?_⟩
  intro hsafe
  have hall : ∀ b ∈ lit "pong from server : " ++ h, htmlSafeSet b.val = true := by
    intro b hb
    rcases List.mem_append.mp hb with hp | hp
    · exact pong_safe b hp
    · exact hsafe b hp
  have h3 : lit "\x7b\"message\":\"pong from server : "
      = lit "\x7b\"message\":" ++ byte 0x22 :: lit "pong from server : " := by decide
  have h4 : lit "\"\x7d\n" = byte 0x22 :: lit "\x7d\n" := by decide
  show Response.marshal (response h) ++ [byte 0x0A] = _
  rw [hbody, appendString, appendStringLoop_safe _ _ (Nat.le_refl _) hall, h3, h4]
  simp only [List.append_assoc, List.cons_append, List.nil_append]

/-- C5, witness: the host `worker-1`. -/
theorem pingHandler_get_body_witness :
    (request (lit "GET") (lit "/ping")).Method = MethodGet
    ∧ (pingHandler (OS.mk (Except.ok (lit "worker-1"))) (request (lit "GET") (lit "/ping"))
        (State.start [] 0)).w.body
        = lit "\x7b\"message\":\"pong from server : " ++ lit "worker-1" ++ lit "\"\x7d\n" :=
  ⟨by decide,
    (pingHandler_get_body (OS.mk (Except.ok (lit "worker-1"))) (request (lit "GET") (lit "/ping"))
      [] 0 (lit "worker-1") (by decide) rfl).2 (by decide)⟩

/-- C5, counterexample: on the host `worker-1` the body is the stated text
followed by a newline, so it is not the stated text and nothing else; and a
host name with a double quote in it is not written verbatim. -/
theorem pingHandler_get_body_not_verbatim :
    (pingHandler (OS.mk (Except.ok (lit "worker-1"))) (request (lit "GET") (lit "/ping"))
        (State.start [] 0)).w.body
      = lit "\x7b\"message\":\"pong from server : worker-1\"\x7d" ++ lit "\n"
    ∧ (pingHandler (OS.mk (Except.ok (lit "worker-1"))) (request (lit "GET") (lit "/ping"))
        (State.start [] 0)).w.body
      ≠ lit "\x7b\"message\":\"pong from server : worker-1\"\x7d"
    ∧ (pingHandler (OS.mk (Except.ok (lit "a\"b"))) (request (lit "GET") (lit "/ping"))
        (State.start [] 0)).w.body
      = lit "\x7b\"message\":\"pong from server : a\\\"b\"\x7d\n" := by
  decide

/-- C7: two GET requests handled while the host name resolves to the same
value get the same response (status, headers, body), whatever the other
fields of the requests are and whatever was logged or resolved before. -/
theorem pingHandler_get_same_response (os1 os2 : OS) (r1 r2 : Request)
    (log1 log2 : List Bytes) (calls1 calls2 : Nat) (h : Bytes)
    (hm1 : r1.Method = MethodGet) (hm2 : r2.Method = MethodGet)
    (hh1 : os1.Hostname = Except.ok h) (hh2 : os2.Hostname = Except.ok h) :
    (pingHandler os1 r1 (State.start log1 calls1)).w
        = (pingHandler os2 r2 (State.start log2 calls2)).w
    ∧ (pingHandler os1 r1 (State.start log1 calls1)).w.body
        = lit "\x7b\"message\":" ++ appendString (lit "pong from server : " ++ h) ++ lit "\x7d\n" := by
  rw [pingHandler_get_ok os1 r1 log1 calls1 h hm1 hh1,
    pingHandler_get_ok os2 r2 log2 calls2 h hm2 hh2]
  refine ⟨rfl, ?_⟩
  have h1 : lit "\x7b\"message\":" = byte 0x7B :: appendString (lit "message") ++ [byte 0x3A] := by
    decide
  have h2 : lit "\x7d\n" = [byte 0x7D, byte 0x0A] := by decide
  simp only [Response.marshal, response, h1, h2, List.append_assoc, List.cons_append,
    List.nil_append]

/-- C7, witness: a bare GET request and a later one with another path, a
query, headers and a body. -/
theorem pingHandler_get_same_response_witness :
    (request (lit "GET") (lit "/ping")).Method = MethodGet
    ∧ ({ request (lit "GET") (lit "/x") with
          RawQuery := lit "a=1", Header := [(lit "Accept", lit "*/*")], Body := lit "hi" }
        : Request).Method = MethodGet
    ∧ (pingHandler (OS.mk (Except.ok (lit "worker-1"))) (request (lit "GET") (lit "/ping"))
          (State.start [] 0)).w
        = (pingHandler (OS.mk (Except.ok (lit "worker-1")))
            { request (lit "GET") (lit "/x") with
              RawQuery := lit "a=1", Header := [(lit "Accept", lit "*/*")], Body := lit "hi" }
            (State.start [lit "Server started on 8080\n"] 7)).w :=
  ⟨by decide, by decide,
    (pingHandler_get_same_response (OS.mk (Except.ok (lit "worker-1")))
      (OS.mk (Except.ok (lit "worker-1"))) (request (lit "GET") (lit "/ping"))
      { request (lit "GET") (lit "/x") with
        RawQuery := lit "a=1", Header := [(lit "Accept", lit "*/*")], Body := lit "hi" }
      [] [lit "Server started on 8080\n"] 0 7 (lit "worker-1") (by decide) (by decide) rfl rfl).1⟩

/-- C8: besides its response writer, `pingHandler` changes only the log; it
adds exactly one line when the method is GET and `os.Hostname` fails and none
in every other case, and it calls `os.Hostname` once on a GET request and not
at all on any other request. -/
theorem pingHandler_log_lines (os : OS) (r : Request) (log : List Bytes) (calls : Nat) :
    log <+: (pingHandler os r (State.start log calls)).log
    ∧ (pingHandler os r (State.start log calls)).log.length
        = log.length + (if r.Method = MethodGet ∧ failed os.Hostname = true then 1 else 0)
    ∧ (pingHandler os r (State.start log calls)).hostnameCalls
        = (if r.Method = MethodGet then calls + 1 else calls) := by
  by_cases hm : r.Method = MethodGet
  · cases hh : os.Hostname with
    | error e =>
      rw [pingHandler_get_error os r log calls e hm hh]
      simp [hm, failed]
    | ok h =>
      rw [pingHandler_get_ok os r log calls h hm hh]
      simp [hm, failed]
  · rw [pingHandler_not_get os r log calls hm]
    simp [hm]

/-- C9 (as amended): the message of every `Response` that `pingHandler`
constructs is non-empty, and it is valid UTF-8 exactly when the host name
is. -/
theorem response_message (h : Bytes) :
    (response h).Message ≠ []
    ∧ 19 ≤ (response h).Message.length
    ∧ ValidString (response h).Message = ValidString h := by
  refine ⟨?_, ?_, validString_ascii_append _ _ pong_ascii⟩
  · intro hc
    have := congrArg List.length hc
    have hl : (lit "pong from server : ").length = 19 := by decide
    simp only [response, List.length_append, hl, List.length_nil] at this
    omega
  · have hl : (lit "pong from server : ").length = 19 := by decide
    simp only [response, List.length_append, hl]
    omega

/-- C9, counterexample: on a host whose name is the single byte 0xFF the
message is not valid UTF-8; with the empty host name it is valid and not
empty. -/
theorem response_message_invalid_utf8 :
    ValidString (response [byte 0xFF]).Message = false
    ∧ ValidString (response []).Message = true
    ∧ (response []).Message ≠ [] := by
  decide

/-- C10: for every method and every outcome of `os.Hostname`, a call of
`pingHandler` ends in exactly one of three ways: the 405 answer, exactly when
the method is not the string `GET`; one log line and nothing written, exactly
when the method is `GET` and `os.Hostname` fails; the 200 JSON answer,
exactly when the method is `GET` and `os.Hostname` succeeds. The methods
`get`, `HEAD` and the empty method get the 405 answer. -/
theorem pingHandler_outcomes (os : OS) (r : Request) (log : List Bytes) (calls : Nat) :
    (isMethodNotAllowed (State.start log calls) (pingHandler os r (State.start log calls))
        ↔ r.Method ≠ MethodGet)
    ∧ (isLoggedOnly (State.start log calls) (pingHandler os r (State.start log calls))
        ↔ r.Method = MethodGet ∧ failed os.Hostname = true)
    ∧ (isPong (State.start log calls) (pingHandler os r (State.start log calls))
        ↔ r.Method = MethodGet ∧ failed os.Hostname = false)
    ∧ (r.Method = lit "get" ∨ r.Method = lit "HEAD" ∨ r.Method = [] →
        isMethodNotAllowed (State.start log calls) (pingHandler os r (State.start log calls))) := by
  have key : ∀ m : Bytes, r.Method = m → m ≠ MethodGet →
      isMethodNotAllowed (State.start log calls) (pingHandler os r (State.start log calls)) := by
    intro m hm hne
    rw [pingHandler_not_get os r log calls (hm ▸ hne)]
    exact ⟨rfl, rfl, rfl, rfl⟩
  refine ⟨?_, ?_, ?_, ?_⟩
  · by_cases hm : r.Method = MethodGet
    · cases hh : os.Hostname with
      | error e =>
        rw [pingHandler_get_error os r log calls e hm hh]
        simp [isMethodNotAllowed, hm, ResponseWriter.fresh, State.start]
      | ok h =>
        rw [pingHandler_get_ok os r log calls h hm hh]
        simp [isMethodNotAllowed, hm, StatusOK, StatusMethodNotAllowed]
    · exact ⟨fun _ => hm, fun _ => key _ rfl hm⟩
  · by_cases hm : r.Method = MethodGet
    · cases hh : os.Hostname with
      | error e =>
        rw [pingHandler_get_error os r log calls e hm hh]
        simp [isLoggedOnly, hm, failed, State.start]
      | ok h =>
        rw [pingHandler_get_ok os r log calls h hm hh]
        simp [isLoggedOnly, hm, failed, State.start]
    · rw [pingHandler_not_get os r log calls hm]
      simp [isLoggedOnly, hm, State.start]
  · by_cases hm : r.Method = MethodGet
    · cases hh : os.Hostname with
      | error e =>
        rw [pingHandler_get_error os r log calls e hm hh]
        simp [isPong, hm, failed, ResponseWriter.fresh]
      | ok h =>
        rw [pingHandler_get_ok os r log calls h hm hh]
        simp only [isPong, hm, failed, State.start, true_and, and_true]
        exact ⟨fun _ => trivial, fun _ => rfl⟩
    · rw [pingHandler_not_get os r log calls hm]
      simp [isPong, hm, StatusOK, StatusMethodNotAllowed]
  · rintro (hm | hm | hm)
    · exact key _ hm (by decide)
    · exact key _ hm (by decide)
    · exact key _ hm (by decide)

/-- C10, witness: a request with the method `get` in lower case. -/
theorem pingHandler_outcomes_witness :
    isMethodNotAllowed (State.start [] 0)
      (pingHandler (OS.mk (Except.ok (lit "worker-1"))) (request (lit "get") (lit "/ping"))
        (State.start [] 0)) :=
  (pingHandler_outcomes (OS.mk (Except.ok (lit "worker-1"))) (request (lit "get") (lit "/ping"))
    [] 0).2.2.2 (Or.inl rfl)

/-! ## Escaped paths -/

theorem hexVal_upperhex (k : Nat) (h : k < 16) : hexVal (upperhex k) = some k := by
  interval_cases k <;> rfl

theorem shouldEscape_percent (c : Byte) (h : c.val = 0x25) : shouldEscape c = true := by
  simp [shouldEscape, h]

theorem unescape_cons_ne (c : Byte) (t : Bytes) (hp : ¬ c.val = 0x25) :
    unescape (c :: t) = (unescape t).map (fun u => c :: u) := by
  rw [unescape.eq_def]
  simp [hp]

/-- Unescaping the default escaping of a path gives the path back. -/
theorem unescape_escape (p : Bytes) : unescape (escape p) = some p := by
  induction p with
  | nil => rfl
  | cons c t ih =>
    by_cases hs : shouldEscape c = true
    · have h1 : c.val / 16 < 16 := by omega
      have h2 : c.val % 16 < 16 := by omega
      have h3 : byte (c.val / 16 * 16 + c.val % 16) = c := byte_eq _ c (by omega)
      simp [escape, hs, unescape, byte_val, hexVal_upperhex _ h1, hexVal_upperhex _ h2, ih, h3]
    · have hp : ¬ c.val = 0x25 := fun h => hs (shouldEscape_percent c h)
      simp [escape, hs, unescape_cons_ne _ _ hp, ih]

/-- The escaped path of a request unescapes to its path. -/
theorem unescape_escapedPath (r : Request) : unescape (EscapedPath r) = some r.Path := by
  unfold EscapedPath
  split_ifs with h1 h2
  · exact h1.2.2
  · rw [h2]; rfl
  · exact unescape_escape _

theorem unescape_cons_slash (p : Bytes) :
    unescape (byte 0x2F :: p) = (unescape p).map (fun u => byte 0x2F :: u) :=
  unescape_cons_ne _ _ (by decide)

/-- A slash in an escaped string is still there after unescaping. -/
theorem slash_mem_unescape (n : Nat) :
    ∀ p t : Bytes, p.length ≤ n → unescape p = some t → byte 0x2F ∈ p → byte 0x2F ∈ t := by
  induction n with
  | zero =>
    intro p t hl _ hm
    have : p = [] := List.eq_nil_of_length_eq_zero (by omega)
    subst this
    simp at hm
  | succ n ih =>
    intro p t hl hu hm
    rcases p with _ | ⟨c, q⟩
    · simp at hm
    by_cases hc : c.val = 0x25
    · rcases q with _ | ⟨a, _ | ⟨b, rest⟩⟩
      · simp [unescape, hc] at hu
      · simp [unescape, hc] at hu
      · cases ha : hexVal a with
        | none => simp [unescape, hc, ha] at hu
        | some x =>
          cases hb : hexVal b with
          | none => simp [unescape, hc, ha, hb] at hu
          | some y =>
            simp only [unescape, hc, if_true, ha, hb, Option.map_eq_some'] at hu
            obtain ⟨u, hu1, hu2⟩ := hu
            have hne : ∀ d : Byte, (hexVal d).isSome → d ≠ byte 0x2F := by decide
            have hca : c ≠ byte 0x2F := by
              intro h; rw [h] at hc; exact absurd hc (by decide)
            have hmr : byte 0x2F ∈ rest := by
              simp only [List.mem_cons] at hm
              rcases hm with h | h | h | h
              · exact absurd h.symm hca
              · exact absurd h.symm (hne a (by simp [ha]))
              · exact absurd h.symm (hne b (by simp [hb]))
              · exact h
            have := ih rest u (by simp at hl; omega) hu1 hmr
            rw [← hu2]
            exact List.mem_cons_of_mem _ this
    · rw [unescape_cons_ne _ _ hc] at hu
      simp only [Option.map_eq_some'] at hu
      obtain ⟨u, hu1, hu2⟩ := hu
      rw [← hu2]
      simp only [List.mem_cons] at hm ⊢
      rcases hm with h | h
      · exact Or.inl h
      · exact Or.inr (ih q u (by simp at hl; omega) hu1 h)

/-! ## Paths of one segment -/

theorem split_no_sep (sep : Byte) (p : Bytes) (h : sep ∉ p) : Split sep p = [p] := by
  induction p with
  | nil => rfl
  | cons b t ih =>
    have hb : ¬ b = sep := fun e => h (e ▸ List.mem_cons_self _ _)
    have ht : sep ∉ t := fun m => h (List.mem_cons_of_mem _ m)
    simp [Split, hb, ih ht]

/-- A slash followed by one segment that is not empty, `.` or `..` is in
canonical form. -/
theorem cleanPath_one_segment (p : Bytes) (hs : byte 0x2F ∉ p) (h0 : p ≠ [])
    (h1 : p ≠ lit ".") (h2 : p ≠ lit "..") :
    cleanPath (byte 0x2F :: p) = byte 0x2F :: p := by
  have hlast : (byte 0x2F :: p).getLast? ≠ some (byte 0x2F) := by
    intro h
    obtain ⟨x, xs, hx⟩ := List.exists_cons_of_ne_nil h0
    rw [hx, List.getLast?_cons_cons, ← hx] at h
    exact hs (List.mem_of_getLast?_eq_some h)
  have hc : Clean (byte 0x2F :: p) = byte 0x2F :: p := by
    have hsl : lit "/" = [byte 0x2F] := by decide
    simp [Clean, Split, split_no_sep _ _ hs, cleanElems, h0, h1, h2, hsl, List.intercalate,
      List.intersperse]
  simp [cleanPath, hc, hlast]

theorem pathSegments_nil (n : Nat) : pathSegments n [] = [] := by
  cases n <;> rfl

/-- The paths that have the one segment `ping`: any first byte, then bytes
without a slash that unescape to `ping`. -/
theorem segmentsOf_eq_ping (path : Bytes) :
    segmentsOf path = [lit "ping"]
      ↔ ∃ c p, path = c :: p ∧ byte 0x2F ∉ p ∧ pathUnescape p = lit "ping" := by
  rcases path with _ | ⟨c, p⟩
  · constructor
    · intro h; exact absurd h (by decide)
    · rintro ⟨c, p, h, _⟩; exact absurd h (by simp)
  have hseg : segmentsOf (c :: p)
      = (firstSegment (c :: p)).1 :: pathSegments p.length (firstSegment (c :: p)).2 := by
    simp [segmentsOf, pathSegments]
  rw [hseg]
  by_cases hroot : c :: p = lit "/"
  · have hl : lit "/" = [byte 0x2F] := by decide
    rw [hl] at hroot
    obtain ⟨hc, hp⟩ := List.cons.inj hroot
    subst hc; subst hp
    constructor
    · intro h; exact absurd h (by decide)
    · rintro ⟨c, p, h, _, hu⟩
      obtain ⟨_, hp⟩ := List.cons.inj h
      subst hp
      exact absurd hu (by decide)
  · have hf : firstSegment (c :: p)
        = (pathUnescape (p.takeWhile (fun b => b ≠ byte 0x2F)),
            p.dropWhile (fun b => b ≠ byte 0x2F)) := by
      simp [firstSegment, hroot]
    rw [hf]
    constructor
    · intro h
      simp only [List.cons.injEq] at h
      obtain ⟨hu, hrest⟩ := h
      have hd : p.dropWhile (fun b => b ≠ byte 0x2F) = [] := by
        by_contra hne
        obtain ⟨x, xs, hx⟩ := List.exists_cons_of_ne_nil hne
        have hlen : (p.dropWhile (fun b => b ≠ byte 0x2F)).length ≤ p.length :=
          (List.dropWhile_sublist _).length_le
        rw [hx] at hrest hlen
        obtain ⟨m, hm⟩ : ∃ m, p.length = m + 1 := ⟨p.length - 1, by simp at hlen; omega⟩
        rw [hm] at hrest
        simp [pathSegments] at hrest
      have hall : ∀ b ∈ p, b ≠ byte 0x2F := by
        have := List.dropWhile_eq_nil_iff.mp hd
        intro b hb
        simpa using this b hb
      have hns : byte 0x2F ∉ p := fun hm => hall _ hm rfl
      have ht : p.takeWhile (fun b => b ≠ byte 0x2F) = p := by
        rw [List.takeWhile_eq_self_iff]
        intro b hb
        simpa using hall b hb
      rw [ht] at hu
      exact ⟨c, p, rfl, hns, hu⟩
    · rintro ⟨c', p', h, hns, hu⟩
      obtain ⟨_, hp⟩ := List.cons.inj h
      subst hp
      have hall : ∀ b ∈ p, b ≠ byte 0x2F := fun b hb e => hns (e ▸ hb)
      have ht : p.takeWhile (fun b => b ≠ byte 0x2F) = p := by
        rw [List.takeWhile_eq_self_iff]
        intro b hb
        simpa using hall b hb
      have hd : p.dropWhile (fun b => b ≠ byte 0x2F) = [] := by
        rw [List.dropWhile_eq_nil_iff]
        intro b hb
        simpa using hall b hb
      rw [ht, hd, hu, pathSegments_nil]

/-! ## The route table -/

theorem main_eq : main = some (routeTable, [lit "Server started on 8080\n"]) := by
  rfl

theorem match_routeTable (path : Bytes) :
    ofMatch (routeTable.match path)
      = if segmentsOf path = [lit "ping"] then (Handler.HandlerFunc pingHandler, lit "/ping")
        else (Handler.NotFoundHandler, []) := by
  by_cases h : segmentsOf path = [lit "ping"]
  · simp [ServeMux.match, routeTable, List.find?, h, ofMatch]
  · have h2 : ¬ [lit "ping"] = segmentsOf path := fun e => h e.symm
    simp [ServeMux.match, routeTable, List.find?, h, h2, ofMatch]

theorem match_none_of_ne (path : Bytes) (h : segmentsOf path ≠ [lit "ping"]) :
    routeTable.match path = none := by
  have h2 : ¬ [lit "ping"] = segmentsOf path := fun e => h e.symm
  simp [ServeMux.match, routeTable, List.find?, h2]

theorem segmentsOf_append_slash (path : Bytes) : segmentsOf (path ++ lit "/") ≠ [lit "ping"] := by
  intro h
  obtain ⟨c, p, hcp, hns, hu⟩ := (segmentsOf_eq_ping _).mp h
  have hl : lit "/" = [byte 0x2F] := by decide
  rw [hl] at hcp
  rcases path with _ | ⟨x, xs⟩
  · simp only [List.nil_append, List.cons.injEq] at hcp
    rw [← hcp.2] at hu
    exact absurd hu (by decide)
  · simp only [List.cons_append, List.cons.injEq] at hcp
    apply hns
    rw [← hcp.2]
    simp

/-- With only `/ping` registered, no path gets the redirect to itself with a
slash added. -/
theorem matchOrRedirect_routeTable (path : Bytes) (u : Option Request) :
    routeTable.matchOrRedirect path u = (routeTable.match path, none) := by
  unfold ServeMux.matchOrRedirect
  rw [match_none_of_ne _ (segmentsOf_append_slash path)]
  cases routeTable.match path <;> cases u <;> simp

theorem escapedPath_shape (r : Request) (hr : fromServer r) :
    EscapedPath r = [] ∨ EscapedPath r = lit "*"
      ∨ ∃ p, EscapedPath r = byte 0x2F :: p := by
  obtain ⟨hp, hraw, _⟩ := hr
  unfold EscapedPath
  split_ifs with h1 h2
  · right; right
    rcases hraw with h | h
    · exact absurd h h1.1
    · rcases hq : r.RawPath with _ | ⟨c, q⟩
      · exact absurd hq h1.1
      · rw [hq] at h
        simp only [List.head?_cons, Option.some.injEq] at h
        exact ⟨q, by rw [h]⟩
  · right; left; rfl
  · rcases hp with h | h | h
    · left; rw [h]; rfl
    · exact absurd h h2
    · right; right
      rcases hq : r.Path with _ | ⟨c, q⟩
      · rw [hq] at h; simp at h
      · rw [hq] at h
        simp only [List.head?_cons, Option.some.injEq] at h
        subst h
        exact ⟨escape q, rfl⟩

/-- A request whose path is not `/ping` does not match the route table. -/
theorem segmentsOf_escapedPath_ne (r : Request) (hr : fromServer r) (hp : r.Path ≠ lit "/ping") :
    segmentsOf (EscapedPath r) ≠ [lit "ping"] := by
  intro h
  obtain ⟨c, p, hcp, _, hu⟩ := (segmentsOf_eq_ping _).mp h
  have hun := unescape_escapedPath r
  rcases escapedPath_shape r hr with he | he | ⟨q, he⟩
  · rw [he] at hcp; simp at hcp
  · rw [he] at hcp
    have hl : lit "*" = [byte 0x2A] := by decide
    rw [hl] at hcp
    simp only [List.cons.injEq] at hcp
    rw [← hcp.2] at hu
    exact absurd hu (by decide)
  · rw [he] at hcp hun
    simp only [List.cons.injEq] at hcp
    rw [hcp.2, unescape_cons_slash] at hun
    simp only [Option.map_eq_some'] at hun
    obtain ⟨t, ht, hpath⟩ := hun
    simp only [pathUnescape, ht, Option.getD_some] at hu
    apply hp
    rw [← hpath, hu]
    decide

/-- A request whose path is `/ping` has an escaped path in canonical form
that matches the route table. -/
theorem escapedPath_ping (r : Request) (hr : fromServer r) (hp : r.Path = lit "/ping") :
    cleanPath (EscapedPath r) = EscapedPath r ∧ segmentsOf (EscapedPath r) = [lit "ping"] := by
  have hun := unescape_escapedPath r
  rw [hp] at hun
  rcases escapedPath_shape r hr with he | he | ⟨p, he⟩
  · rw [he] at hun; exact absurd hun (by decide)
  · rw [he] at hun; exact absurd hun (by decide)
  · rw [he] at hun ⊢
    rw [unescape_cons_slash] at hun
    simp only [Option.map_eq_some'] at hun
    obtain ⟨t, ht, hpath⟩ := hun
    have hsplit : lit "/ping" = byte 0x2F :: lit "ping" := by decide
    rw [hsplit] at hpath
    have htp : t = lit "ping" := (List.cons.inj hpath).2
    subst htp
    have hns : byte 0x2F ∉ p := by
      intro hm
      exact absurd (slash_mem_unescape p.length p _ (Nat.le_refl _) ht hm) (by decide)
    have h0 : p ≠ [] := by
      intro e; rw [e] at ht; exact absurd ht (by decide)
    have h1 : p ≠ lit "." := by
      intro e; rw [e] at ht; exact absurd ht (by decide)
    have h2 : p ≠ lit ".." := by
      intro e; rw [e] at ht; exact absurd ht (by decide)
    refine ⟨cleanPath_one_segment p hns h0 h1 h2, ?_⟩
    exact (segmentsOf_eq_ping _).mpr ⟨_, p, rfl, hns, by simp [pathUnescape, ht]⟩

theorem findHandler_ping (rel : Release) (r : Request) (hr : fromServer r)
    (hp : r.Path = lit "/ping") :
    routeTable.findHandler rel r = (Handler.HandlerFunc pingHandler, lit "/ping") := by
  obtain ⟨hc, hs⟩ := escapedPath_ping r hr hp
  unfold ServeMux.findHandler
  simp only [matchOrRedirect_routeTable, hc, ne_eq, not_true_eq_false, if_false,
    match_routeTable, hs, if_true, ite_self]

theorem findHandler_notFound (rel : Release) (r : Request) (hr : fromServer r)
    (hp : r.Path ≠ lit "/ping")
    (hc : r.Method = lit "CONNECT" ∨ cleanPath (EscapedPath r) = EscapedPath r) :
    routeTable.findHandler rel r = (Handler.NotFoundHandler, []) := by
  have hs := segmentsOf_escapedPath_ne r hr hp
  unfold ServeMux.findHandler
  by_cases hm : r.Method = lit "CONNECT"
  · simp only [hm, if_true, matchOrRedirect_routeTable, match_routeTable, hs, if_false]
  · have hcl := hc.resolve_left hm
    simp only [hm, if_false, matchOrRedirect_routeTable, hcl, ne_eq, not_true_eq_false,
      match_routeTable, hs]

theorem findHandler_redirect (rel : Release) (r : Request) (hm : r.Method ≠ lit "CONNECT")
    (hc : cleanPath (EscapedPath r) ≠ EscapedPath r) :
    (routeTable.findHandler rel r).1
      = Handler.RedirectHandler (urlString (cleanPath (EscapedPath r)) r.RawQuery)
          rel.redirectStatus := by
  unfold ServeMux.findHandler
  simp only [hm, if_false, matchOrRedirect_routeTable, hc, ne_eq, not_false_eq_true, if_true]

/-- What the server does with a request it does not refuse and whose target
is not `*`: the response is the one of the handler that the multiplexer
finds. -/
theorem serve_w (rel : Release) (mux : ServeMux) (os : OS) (r : Request) (log : List Bytes)
    (calls : Nat) (he : expectationFails r = false) (hu : r.RequestURI ≠ lit "*") :
    (serve rel mux os r log calls).w
      = ((mux.findHandler rel r).1.ServeHTTP os r (State.start log calls)).w := by
  simp only [serve, he, Bool.false_eq_true, if_false, serverHandler, hu, false_and,
    ServeMux.ServeHTTP]
  split_ifs <;> rfl

theorem path_ne_star (r : Request) (hp : r.Path = lit "/ping") : r.Path ≠ lit "*" := by
  rw [hp]; decide

/-- C6 (as amended): with the route table built by `main`, for every request
that the parser of the server builds: a request whose path is `/ping` is
dispatched to `pingHandler`, for every method, unless it carries an `Expect`
header that asks for something other than `100-continue`; a request whose
path is not `/ping` is never dispatched to `pingHandler`, and it gets status
404 when its method is CONNECT or its path as sent is in canonical form; a
request other than CONNECT whose path as sent is not in canonical form gets a
redirect to the canonical path instead, with status 301 or 307 by Go release;
the request target `*` gets 200 for OPTIONS and 400 for every other method;
and a failed expectation gets 417 before the route table is consulted. -/
theorem main_routes (rel : Release) (os : OS) (r : Request) (log : List Bytes) (calls : Nat)
    (hr : fromServer r) :
    main = some (routeTable, [lit "Server started on 8080\n"])
    ∧ (r.Path = lit "/ping" → expectationFails r = false →
        routeTable.findHandler rel r = (Handler.HandlerFunc pingHandler, lit "/ping")
        ∧ (serve rel routeTable os r log calls).w = (pingHandler os r (State.start log calls)).w)
    ∧ (r.Path ≠ lit "/ping" → ∀ f, (routeTable.findHandler rel r).1 ≠ Handler.HandlerFunc f)
    ∧ (r.Path ≠ lit "/ping" → r.Path ≠ lit "*" → expectationFails r = false →
          (r.Method = lit "CONNECT" ∨ cleanPath (EscapedPath r) = EscapedPath r) →
        (routeTable.findHandler rel r).1 = Handler.NotFoundHandler
        ∧ (serve rel routeTable os r log calls).w.finalStatus = 404)
    ∧ (r.Path ≠ lit "*" → expectationFails r = false →
          r.Method ≠ lit "CONNECT" → cleanPath (EscapedPath r) ≠ EscapedPath r →
        (routeTable.findHandler rel r).1
            = Handler.RedirectHandler (urlString (cleanPath (EscapedPath r)) r.RawQuery)
                rel.redirectStatus
        ∧ (serve rel routeTable os r log calls).w.finalStatus = rel.redirectStatus)
    ∧ (r.Path = lit "*" → expectationFails r = false →
        (serve rel routeTable os r log calls).w.finalStatus
          = if r.Method = lit "OPTIONS" then 200 else 400)
    ∧ (expectationFails r = true →
        (serve rel routeTable os r log calls).w.finalStatus = 417) := by
  have hstar : r.RequestURI = lit "*" ↔ r.Path = lit "*" := hr.2.2
  refine ⟨main_eq, ?_, ?_, ?_, ?_, ?_, ?_⟩
  · intro hp he
    have hu : r.RequestURI ≠ lit "*" := fun h => path_ne_star r hp (hstar.mp h)
    refine ⟨findHandler_ping rel r hr hp, ?_⟩
    rw [serve_w rel routeTable os r log calls he hu, findHandler_ping rel r hr hp]
    rfl
  · intro hp f hf
    by_cases hc : r.Method = lit "CONNECT" ∨ cleanPath (EscapedPath r) = EscapedPath r
    · rw [findHandler_notFound rel r hr hp hc] at hf
      exact Handler.noConfusion hf
    · have hm : r.Method ≠ lit "CONNECT" := fun h => hc (Or.inl h)
      have hcl : cleanPath (EscapedPath r) ≠ EscapedPath r := fun h => hc (Or.inr h)
      rw [findHandler_redirect rel r hm hcl] at hf
      exact Handler.noConfusion hf
  · intro hp hs he hc
    have hu : r.RequestURI ≠ lit "*" := fun h => hs (hstar.mp h)
    refine ⟨by rw [findHandler_notFound rel r hr hp hc], ?_⟩
    rw [serve_w rel routeTable os r log calls he hu, findHandler_notFound rel r hr hp hc]
    rfl
  · intro hs he hm hcl
    have hu : r.RequestURI ≠ lit "*" := fun h => hs (hstar.mp h)
    refine ⟨findHandler_redirect rel r hm hcl, ?_⟩
    rw [serve_w rel routeTable os r log calls he hu, findHandler_redirect rel r hm hcl]
    simp only [Handler.ServeHTTP, Redirect]
    split_ifs <;> rfl
  · intro hs he
    have hu : r.RequestURI = lit "*" := hstar.mpr hs
    by_cases ho : r.Method = lit "OPTIONS"
    · simp only [serve, he, Bool.false_eq_true, if_false, serverHandler, hu, ho, and_self,
        if_true]
      split_ifs <;> rfl
    · simp only [serve, he, Bool.false_eq_true, if_false, serverHandler, hu, ho, and_false,
        ServeMux.ServeHTTP, if_true]
      split_ifs <;> rfl
  · intro he
    simp only [serve, he, if_true]
    rfl

/-- C6, witness: POST `/ping`, GET `/other`, GET `/a/../ping` sent with its
slashes escaped, and GET `/a/../ping` sent as it is. -/
theorem main_routes_witness :
    fromServer (request (lit "POST") (lit "/ping"))
    ∧ (serve Release.temporaryRedirect routeTable (OS.mk (Except.ok (lit "worker-1")))
          (request (lit "POST") (lit "/ping")) [] 0).w
        = (pingHandler (OS.mk (Except.ok (lit "worker-1"))) (request (lit "POST") (lit "/ping"))
            (State.start [] 0)).w
    ∧ (serve Release.temporaryRedirect routeTable (OS.mk (Except.ok (lit "worker-1")))
        (request (lit "GET") (lit "/other")) [] 0).w.finalStatus = 404
    ∧ (serve Release.temporaryRedirect routeTable (OS.mk (Except.ok (lit "worker-1")))
        { request (lit "GET") (lit "/a/../ping") with RawPath := lit "/a%2F..%2Fping" }
        [] 0).w.finalStatus = 404
    ∧ (serve Release.temporaryRedirect routeTable (OS.mk (Except.ok (lit "worker-1")))
        (request (lit "GET") (lit "/a/../ping")) [] 0).w.finalStatus = 307 :=
  ⟨by decide,
    ((main_routes Release.temporaryRedirect (OS.mk (Except.ok (lit "worker-1")))
      (request (lit "POST") (lit "/ping")) [] 0 (by decide)).2.1 (by decide) (by decide)).2,
    ((main_routes Release.temporaryRedirect (OS.mk (Except.ok (lit "worker-1")))
      (request (lit "GET") (lit "/other")) [] 0 (by decide)).2.2.2.1 (by decide) (by decide)
      (by decide) (Or.inr (by decide))).2,
    ((main_routes Release.temporaryRedirect (OS.mk (Except.ok (lit "worker-1")))
      { request (lit "GET") (lit "/a/../ping") with RawPath := lit "/a%2F..%2Fping" } [] 0
      (by decide)).2.2.2.1 (by decide) (by decide) (by decide) (Or.inr (by decide))).2,
    ((main_routes Release.temporaryRedirect (OS.mk (Except.ok (lit "worker-1")))
      (request (lit "GET") (lit "/a/../ping")) [] 0 (by decide)).2.2.2.2.1 (by decide) (by decide)
      (by decide) (by decide)).2⟩

/-- C6, counterexample: a GET request for the path `//ping`, which is not
`/ping`, is answered with a redirect, status 301 or 307 by Go release, not
with 404; `OPTIONS *` is answered 200, not 404; and a GET request for `/ping`
with the header `Expect: foo` is answered 417 without `pingHandler` being
called. -/
theorem main_routes_not_404 :
    (request (lit "GET") (lit "//ping")).Path ≠ lit "/ping"
    ∧ main.map (fun p => (serve Release.movedPermanently p.1 (OS.mk (Except.ok (lit "worker-1")))
        (request (lit "GET") (lit "//ping")) [] 0).w.finalStatus) = some 301
    ∧ main.map (fun p => (serve Release.temporaryRedirect p.1 (OS.mk (Except.ok (lit "worker-1")))
        (request (lit "GET") (lit "//ping")) [] 0).w.finalStatus) = some 307
    ∧ main.map (fun p => (serve Release.temporaryRedirect p.1 (OS.mk (Except.ok (lit "worker-1")))
        (request (lit "OPTIONS") (lit "*")) [] 0).w.finalStatus) = some 200
    ∧ main.map (fun p => (serve Release.temporaryRedirect p.1 (OS.mk (Except.ok (lit "worker-1")))
        { request (lit "GET") (lit "/ping") with Header := [(lit "Expect", lit "foo")] }
        [] 0).w.finalStatus) = some 417
    ∧ main.map (fun p => (serve Release.temporaryRedirect p.1 (OS.mk (Except.ok (lit "worker-1")))
        { request (lit "GET") (lit "/ping") with Header := [(lit "Expect", lit "foo")] }
        [] 0).w.body) = some []
    ∧ main.map (fun p => (serve Release.temporaryRedirect p.1 (OS.mk (Except.ok (lit "worker-1")))
        { request (lit "GET") (lit "/ping") with Header := [(lit "Expect", lit "foo")] }
        [] 0).hostnameCalls) = some 0 := by
  decide

end PingService
